import Mathlib

/-!
Field validation engine (`validator.go`).

A shallow embedding of the Go package `validator`: the five checkers
(`DefaultValidator`, `StringValidator`, `RegexValidator`, `NumberValidator`,
`EmailValidator`), the tag parser `getValidatorFromTag` and the record walker
`ValidateStruct`, followed by theorems about them.

Conventions of the embedding.

* A Go `string` is a Lean `String` (a sequence of Unicode code points, i.e. valid
  UTF-8 text); `len([]rune(s))` is `s.length`.
* A Go `error` is identified with its message (`err.Error()`); `nil` is `none`.
* A panic (a failed type assertion, `Interface()` on an unexported field) is the
  result `none` of a function returning `Option`.
* `int` is 64 bits wide.
* A `float64` is a value of `F64`.
* The standard library is the one of Go 1.13 and later (`strconv.ParseFloat` reads
  underscores between digits and hexadecimal mantissas).
-/

namespace validator

/-! ## float64 -/

/-- An IEEE-754 binary64 value: NaN, an infinity, or a finite value. Every finite
binary64 value is an integer multiple of `2^(-1074)`; `fin k` stands for
`k * 2^(-1074)` (both zeros are `fin 0`). -/
inductive F64
  | nan
  | ninf
  | fin (k : Int)
  | pinf
deriving DecidableEq, Repr

namespace F64

/-- The number of units `2^(-1074)` in 1. -/
def one : Nat := 2 ^ 1074

/-- The first magnitude (in units of `2^(-1074)`) that is too large for a finite
binary64 value: `2^1024`. -/
def huge : Nat := 2 ^ 2098

def isNaN : F64 → Bool
  | nan => true
  | _ => false

/-- Go's `a < b` on float64: false as soon as one operand is NaN. -/
def lt : F64 → F64 → Bool
  | nan, _ => false
  | _, nan => false
  | ninf, ninf => false
  | ninf, _ => true
  | fin _, ninf => false
  | fin a, fin b => decide (a < b)
  | fin _, pinf => true
  | pinf, _ => false

/-- Go's `a > b`. -/
def gt (a b : F64) : Bool := lt b a

/-- Go's `a <= b`: both are numbers and `b < a` does not hold. -/
def le (a b : F64) : Bool := !a.isNaN && !b.isNaN && !lt b a

/-- Go's `a >= b`. -/
def ge (a b : F64) : Bool := le b a

/-- The number of binary digits of `n` (`fuel` bounds it). -/
def bitLengthAux : Nat → Nat → Nat
  | 0, _ => 0
  | fuel + 1, n => if n = 0 then 0 else bitLengthAux fuel (n / 2) + 1

/-- The number of binary digits of `n`: the least `b` with `n < 2^b`. -/
def bitLength (n : Nat) : Nat := bitLengthAux n n

/-- Round the non-negative rational `num / den` to the nearest integer that has at
most 53 significant bits, ties to even (round-to-nearest-even of IEEE-754, in units
of the smallest subnormal). -/
@[irreducible] def roundMag (num den : Nat) : Nat :=
  let q := num / den
  let sh := bitLength q - 53
  let u := den * 2 ^ sh
  let n := num / u
  let r := num % u
  let n1 := if u < 2 * r ∨ (2 * r = u ∧ n % 2 = 1) then n + 1 else n
  n1 * 2 ^ sh

/-- The binary64 value nearest to `± num / den` (a real number), `±Inf` on
overflow. -/
@[irreducible] def ofRat (neg : Bool) (num den : Nat) : F64 :=
  let k := roundMag (num * one) den
  if huge ≤ k then (if neg then ninf else pinf)
  else fin (if neg then -(k : Int) else (k : Int))

/-- Go's conversion `float64(i)` of an integer. -/
@[irreducible] def ofInt (i : Int) : F64 := ofRat (decide (i < 0)) i.natAbs 1

end F64

/-! ## Values and errors -/

/-- A dynamically typed Go value (`interface{}`), as far as the checkers tell
values apart. -/
inductive Value
  | str (s : String)
  | float64 (x : F64)
  | int64 (i : Int)
  | int32 (i : Int)
  | int (i : Int)
  | other
deriving DecidableEq, Repr

/-- The pair `(bool, error)` returned by `Validate`. -/
abbrev Result := Bool × Option String

/-! ## Decimal rendering of integers (`%v`, `%d`, `strconv.Itoa`) -/

def digitChar (d : Nat) : Char := Char.ofNat (48 + d)

/-- The decimal digits of `n`, least significant first (`fuel` bounds the number of
digits). -/
def digitsRev : Nat → Nat → List Char
  | 0, _ => []
  | fuel + 1, n => if n < 10 then [digitChar n] else digitChar (n % 10) :: digitsRev fuel (n / 10)

/-- Decimal rendering of a natural number. -/
def natDec (n : Nat) : List Char := (digitsRev (n + 1) n).reverse

/-- Go's `strconv.Itoa`, also what `%v` and `%d` print for an `int`. -/
def Itoa (i : Int) : List Char :=
  if i < 0 then '-' :: natDec i.natAbs else natDec i.natAbs

/-! ## Regular expressions (package `regexp`)

The parsed form of a pattern and what it means for it to match. The parser of the
`regexp/syntax` package is not modelled: `RegexValidator` receives it as part of
`Library`, and the one pattern the source fixes, `mailRe`, is written in parsed
form. -/

/-- A parsed regular expression. A character class is a list of inclusive
ranges. -/
inductive Regex
  | emptyMatch
  | cls (ranges : List (Char × Char))
  | cat (a b : Regex)
  | alt (a b : Regex)
  | star (a : Regex)
  | plus (a : Regex)
  | quest (a : Regex)
  | group (a : Regex)
  | beginText
  | endText
  | beginLine
  | endLine
  | wordBoundary
  | noWordBoundary
deriving DecidableEq, Repr

/-- A character lies in one of the ranges of a class. -/
def inRanges (ranges : List (Char × Char)) (c : Char) : Bool :=
  ranges.any fun r => decide (r.1 ≤ c) && decide (c ≤ r.2)

/-- The one-character literal. -/
def Regex.lit (c : Char) : Regex := .cls [(c, c)]

/-- The ASCII word characters of `\w` and `\b`. -/
def wordRanges : List (Char × Char) := [('0', '9'), ('A', 'Z'), ('_', '_'), ('a', 'z')]

def isWordCtx : Option Char → Bool
  | none => false
  | some c => inRanges wordRanges c

/-- Every way of writing `w = u ++ v`, shortest `u` first. -/
def splits : List Char → List (List Char × List Char)
  | [] => [([], [])]
  | c :: t => ([], c :: t) :: (splits t).map fun p => (c :: p.1, p.2)

/-- The character before a position: the last of `u` if there is one, else `prev`. -/
def ctxAfter (prev : Option Char) (u : List Char) : Option Char :=
  match u.getLast? with
  | some c => some c
  | none => prev

/-- The character after a position: the first of `v` if there is one, else `next`. -/
def ctxBefore (v : List Char) (next : Option Char) : Option Char :=
  match v with
  | c :: _ => some c
  | [] => next

/-- Zero or more non-empty pieces of `w`, each accepted by `m` (at most `fuel`
pieces). -/
def iterMatches (m : Option Char → List Char → Option Char → Bool) :
    Nat → Option Char → List Char → Option Char → Bool
  | 0, _, w, _ => w.isEmpty
  | fuel + 1, prev, w, next =>
    w.isEmpty || (splits w).any fun p =>
      !p.1.isEmpty && m prev p.1 (ctxBefore p.2 next) &&
        iterMatches m fuel (ctxAfter prev p.1) p.2 next

/-- The pattern matches exactly the piece `w` of a text, where `prev` is the
character of the text just before `w` and `next` the one just after (`none` at the
text's ends). -/
def Regex.matchesAt : Regex → Option Char → List Char → Option Char → Bool
  | .emptyMatch, _, w, _ => w.isEmpty
  | .cls ranges, _, w, _ =>
    match w with
    | [c] => inRanges ranges c
    | _ => false
  | .cat a b, prev, w, next =>
    (splits w).any fun p =>
      a.matchesAt prev p.1 (ctxBefore p.2 next) && b.matchesAt (ctxAfter prev p.1) p.2 next
  | .alt a b, prev, w, next => a.matchesAt prev w next || b.matchesAt prev w next
  | .star a, prev, w, next =>
    iterMatches (fun x u y => a.matchesAt x u y) w.length prev w next
  | .plus a, prev, w, next =>
    (splits w).any fun p =>
      a.matchesAt prev p.1 (ctxBefore p.2 next) &&
        iterMatches (fun x u y => a.matchesAt x u y) p.2.length (ctxAfter prev p.1) p.2 next
  | .quest a, prev, w, next => w.isEmpty || a.matchesAt prev w next
  | .group a, prev, w, next => a.matchesAt prev w next
  | .beginText, prev, w, _ => w.isEmpty && prev.isNone
  | .endText, _, w, next => w.isEmpty && next.isNone
  | .beginLine, prev, w, _ => w.isEmpty && (prev.isNone || prev == some '\n')
  | .endLine, _, w, next => w.isEmpty && (next.isNone || next == some '\n')
  | .wordBoundary, prev, w, next => w.isEmpty && (isWordCtx prev != isWordCtx next)
  | .noWordBoundary, prev, w, next => w.isEmpty && (isWordCtx prev == isWordCtx next)

/-- The pattern matches the whole text. -/
def Regex.fullMatch (re : Regex) (s : String) : Bool := re.matchesAt none s.data none

/-- Go's `(*Regexp).MatchString`: the text contains a match of the pattern, that
is, the pattern matches some piece `w` of `s = x ++ w ++ y`. -/
def Regex.MatchString (re : Regex) (s : String) : Bool :=
  (splits s.data).any fun p =>
    (splits p.2).any fun q => re.matchesAt p.1.getLast? q.1 q.2.head?

/-- The pattern of `mailRe`, parsed:
`\A[\w+\-.]+@[a-z\d\-]+(\.[a-z]+)*\.[a-z]+\z`. -/
def mailRe : Regex :=
  .cat .beginText
    (.cat (.plus (.cls (wordRanges ++ [('+', '+'), ('-', '-'), ('.', '.')])))
      (.cat (.lit '@')
        (.cat (.plus (.cls [('a', 'z'), ('0', '9'), ('-', '-')]))
          (.cat (.star (.group (.cat (.lit '.') (.plus (.cls [('a', 'z')])))))
            (.cat (.lit '.')
              (.cat (.plus (.cls [('a', 'z')])) .endText))))))

/-! ## Library functions taken as given -/

/-- What the embedding reads from Go's standard library without modelling it:
the parser of regular expressions (`regexp.Compile`, with the message of the error
it returns for a malformed pattern) and the rendering of a float64 by the verbs
`%v` and `%.2f`. -/
structure Library where
  regexpCompile : String → Except String Regex
  formatV : F64 → String
  formatF2 : F64 → String

/-! ## Scanning (`fmt.Sscanf`, `strconv`)

The part of `fmt.Sscanf` that `getValidatorFromTag` uses: formats made of literal
text and the verbs `%d`, `%g` and `%s` (no width, no space in the format), scanning
into an `*int`, a `*float64` and a `*string`. -/

/-- The table `space` of `fmt/scan.go`. -/
def spaceTable : List (Nat × Nat) :=
  [(0x0009, 0x000d), (0x0020, 0x0020), (0x0085, 0x0085), (0x00a0, 0x00a0),
   (0x1680, 0x1680), (0x2000, 0x200a), (0x2028, 0x2029), (0x202f, 0x202f),
   (0x205f, 0x205f), (0x3000, 0x3000)]

/-- The function `isSpace` of `fmt/scan.go`. -/
def isSpace (c : Char) : Bool :=
  spaceTable.any fun r => decide (r.1 ≤ c.toNat) && decide (c.toNat ≤ r.2)

/-- The method `SkipSpace` of the scanner, when a newline does not count as space:
the input that is left, or `none` for the error "unexpected newline". -/
def SkipSpace : List Char → Option (List Char)
  | [] => some []
  | c :: t =>
    if c = '\r' ∧ t.head? = some '\n' then SkipSpace t
    else if c = '\n' then none
    else if isSpace c then SkipSpace t
    else some (c :: t)

/-- Literal text of a format: every character has to be the next one of the
input. -/
def scanLiteral : List Char → List Char → Option (List Char)
  | [], inp => some inp
  | _ :: _, [] => none
  | f :: fs, c :: inp => if f = c then scanLiteral fs inp else none

def isDigit (c : Char) : Bool := decide ('0' ≤ c) && decide (c ≤ '9')

def isHexDigit (c : Char) : Bool :=
  isDigit c || (decide ('a' ≤ c) && decide (c ≤ 'f')) || (decide ('A' ≤ c) && decide (c ≤ 'F'))

/-- The value of a decimal or hexadecimal digit. -/
def digitVal (c : Char) : Nat :=
  if isDigit c then c.toNat - 48
  else if decide ('a' ≤ c) && decide (c ≤ 'f') then c.toNat - 87
  else c.toNat - 55

/-- The number written by a string of digits in the given base. -/
def parseDigits (base : Nat) (ds : List Char) : Nat :=
  ds.foldl (fun acc c => base * acc + digitVal c) 0

/-- `strconv.ParseInt(tok, 10, 64)` (also `strconv.Atoi`): an optional sign and at
least one decimal digit, the value in the range of an int64. -/
def parseInt (tok : List Char) : Option Int :=
  let neg := tok.head? = some '-'
  let ds := if tok.head? = some '-' ∨ tok.head? = some '+' then tok.tail else tok
  if ds = [] ∨ ¬ ds.all isDigit then none
  else
    let i : Int := if neg then -(parseDigits 10 ds : Int) else (parseDigits 10 ds : Int)
    if -(2 : Int) ^ 63 ≤ i ∧ i < (2 : Int) ^ 63 then some i else none

/-- The verb `%d` into an `*int` (`scanInt`): spaces are skipped, then an optional
sign and the decimal digits that follow are read and converted. -/
def scanInt (inp : List Char) : Option (Int × List Char) :=
  match SkipSpace inp with
  | none => none
  | some [] => none
  | some (c :: t) =>
    let body := if c = '+' ∨ c = '-' then t else c :: t
    let sign := if c = '+' ∨ c = '-' then [c] else []
    let ds := body.takeWhile isDigit
    if ds = [] then none
    else (parseInt (sign ++ ds)).map fun i => (i, body.dropWhile isDigit)

/-- The verb `%s` into a `*string`: spaces are skipped, then the characters up to
the next space are read. -/
def scanString (inp : List Char) : Option (String × List Char) :=
  match SkipSpace inp with
  | none => none
  | some [] => none
  | some r => some (String.mk (r.takeWhile fun c => !isSpace c), r.dropWhile fun c => !isSpace c)

/-- The method `accept` of the scanner: when the next character of the input is one
of `ok` it moves to the token read so far. A state is the token and the input left. -/
def accept (ok : List Char) (st : List Char × List Char) : Bool × (List Char × List Char) :=
  match st.2 with
  | [] => (false, st)
  | c :: t => if c ∈ ok then (true, (st.1 ++ [c], t)) else (false, st)

/-- The loop `for s.accept(ok) {}`. -/
def acceptAll (ok : List Char) (st : List Char × List Char) : List Char × List Char :=
  (st.1 ++ st.2.takeWhile fun c => decide (c ∈ ok), st.2.dropWhile fun c => decide (c ∈ ok))

def decimalDigits : List Char := "0123456789".data

def hexadecimalDigits : List Char := "0123456789aAbBcCdDeEfF".data

/-- The method `floatToken` of the scanner: the longest text at the head of the
input that looks like a floating-point number, and the input left. -/
def floatToken (inp : List Char) : List Char × List Char :=
  let n1 := accept "nN".data ([], inp)
  let n2 := if n1.1 then accept "aA".data n1.2 else (false, n1.2)
  let n3 := if n2.1 then accept "nN".data n2.2 else (false, n2.2)
  if n3.1 then n3.2
  else
    let sg := accept "+-".data n3.2
    let i1 := accept "iI".data sg.2
    let i2 := if i1.1 then accept "nN".data i1.2 else (false, i1.2)
    let i3 := if i2.1 then accept "fF".data i2.2 else (false, i2.2)
    if i3.1 then i3.2
    else
      let z := accept "0".data i3.2
      let x := if z.1 then accept "xX".data z.2 else (false, z.2)
      let digits := if x.1 then hexadecimalDigits ++ ['_'] else decimalDigits ++ ['_']
      let exp := if x.1 then "pP".data else "eEpP".data
      let m := acceptAll digits x.2
      let dot := accept ".".data m
      let fr := if dot.1 then acceptAll digits dot.2 else dot.2
      let e := accept exp fr
      if e.1 then acceptAll (decimalDigits ++ ['_']) (accept "+-".data e.2).2
      else e.2

/-- The function `underscoreOK` of `strconv`: underscores only between digits, or
between a base prefix and a digit. `saw` is the kind of the last character seen. -/
def underscoreLoop (hex : Bool) : List Char → Char → Bool
  | [], saw => saw != '_'
  | c :: t, saw =>
    if isDigit c || (hex && isHexDigit c) then underscoreLoop hex t '0'
    else if c = '_' then (if saw != '0' then false else underscoreLoop hex t '_')
    else if saw = '_' then false
    else underscoreLoop hex t '!'

def underscoreOK (s : List Char) : Bool :=
  let s1 := if s.head? = some '-' ∨ s.head? = some '+' then s.tail else s
  match s1 with
  | '0' :: c :: t =>
    if c ∈ "bBoOxX".data then underscoreLoop (decide (c = 'x' ∨ c = 'X')) t '0'
    else underscoreLoop false s1 '^'
  | _ => underscoreLoop false s1 '^'

/-- The digits of a mantissa (`readFloat`): underscores are passed over, one point
is allowed. The result is the mantissa read as a whole number, the count of digits
after the point, whether a digit was seen, and the text left. -/
def readMantissa (hex : Bool) : List Char → Nat → Nat → Bool → Bool → Nat × Nat × Bool × List Char
  | [], m, fr, sawDigits, _ => (m, fr, sawDigits, [])
  | c :: t, m, fr, sawDigits, sawDot =>
    if c = '_' then readMantissa hex t m fr sawDigits sawDot
    else if c = '.' then
      (if sawDot then (m, fr, sawDigits, c :: t) else readMantissa hex t m fr sawDigits true)
    else if isDigit c || (hex && isHexDigit c) then
      readMantissa hex t ((if hex then 16 else 10) * m + digitVal c)
        (if sawDot then fr + 1 else fr) true sawDot
    else (m, fr, sawDigits, c :: t)

/-- The digits of an exponent (`readFloat`): the value stops growing at 10000. -/
def readExponent (ds : List Char) : Nat :=
  ds.foldl (fun e c => if c = '_' then e else if e < 10000 then e * 10 + digitVal c else e) 0

/-- The binary64 value nearest to `± m * base ^ e`, `±Inf` on overflow. -/
def scalePow (neg : Bool) (m base : Nat) (e : Int) : F64 :=
  if 0 ≤ e then F64.ofRat neg (m * base ^ e.toNat) 1
  else F64.ofRat neg m (base ^ (-e).toNat)

/-- A finite result is returned, an overflow is the error `ErrRange`. -/
def finiteOnly : F64 → Option F64
  | .fin k => some (.fin k)
  | _ => none

/-- The function `special` of `strconv`: the token is NaN or a signed infinity. -/
def special (tok : List Char) : Option F64 :=
  if tok.map Char.toLower = "nan".data then some .nan
  else
    let s1 := if tok.head? = some '-' ∨ tok.head? = some '+' then tok.tail else tok
    if s1.map Char.toLower = "inf".data ∨ s1.map Char.toLower = "infinity".data then
      some (if tok.head? = some '-' then .ninf else .pinf)
    else none

/-- A mantissa is hexadecimal when it starts with `0x` or `0X` and goes on. -/
def hexPrefix : List Char → Bool
  | '0' :: c :: _ :: _ => decide (c = 'x' ∨ c = 'X')
  | _ => false

/-- The function `readFloat` of `strconv` followed by the conversion of what it
read: a decimal or hexadecimal floating-point number is rounded to the nearest
binary64 value; `none` for a syntax error or a value out of range. -/
def readFloat (tok : List Char) : Option F64 :=
  let neg : Bool := decide (tok.head? = some '-')
  let s1 := if tok.head? = some '-' ∨ tok.head? = some '+' then tok.tail else tok
  let hex := hexPrefix s1
  let r := readMantissa hex (if hex then s1.drop 2 else s1) 0 0 false false
  if !r.2.2.1 ∨ !underscoreOK tok then none
  else
    match r.2.2.2 with
    | [] => if hex then none else finiteOnly (scalePow neg r.1 10 (-(r.2.1 : Int)))
    | c :: t =>
      if (hex ∧ (c = 'p' ∨ c = 'P')) ∨ (¬ hex ∧ (c = 'e' ∨ c = 'E')) then
        let eneg := t.head? = some '-'
        let ds := if t.head? = some '-' ∨ t.head? = some '+' then t.tail else t
        if (ds.head?.map isDigit) = some true ∧ ds.all (fun d => isDigit d || d == '_') then
          let e : Int := if eneg then -(readExponent ds : Int) else (readExponent ds : Int)
          if hex then finiteOnly (scalePow neg r.1 2 (e - 4 * (r.2.1 : Int)))
          else finiteOnly (scalePow neg r.1 10 (e - (r.2.1 : Int)))
        else none
      else none

/-- `strconv.ParseFloat(tok, 64)` on a token of `floatToken`: NaN, a signed
infinity, or a number. -/
def parseFloat (tok : List Char) : Option F64 :=
  match special tok with
  | some x => some x
  | none => readFloat tok

/-- Reduction of an integer to the range of an int64 (two's complement). -/
def wrap64 (x : Int) : Int := (x + 2 ^ 63) % 2 ^ 64 - 2 ^ 63

/-- Go's `math.Ldexp(f, m)`, the value `f * 2^m` rounded to binary64; the exponent
of the result is computed in the type `int`. -/
def Ldexp (f : F64) (m : Int) : F64 :=
  match f with
  | .fin k =>
    if k = 0 then .fin 0
    else
      let e0 : Int := (F64.bitLength k.natAbs : Int) - 1075
      let e := wrap64 (m + e0)
      if e < -1075 then .fin 0
      else if 1023 < e then (if k < 0 then .ninf else .pinf)
      else if 0 ≤ e - e0 then F64.ofRat (decide (k < 0)) (k.natAbs * 2 ^ (e - e0).toNat) F64.one
      else F64.ofRat (decide (k < 0)) k.natAbs (F64.one * 2 ^ (e0 - e).toNat)
  | x => x

/-- The method `convertFloat` of the scanner: a decimal mantissa with a binary
exponent (`1.5p3`) is evaluated here, every other token goes to `ParseFloat`. -/
def convertFloat (tok : List Char) : Option F64 :=
  if 'p' ∈ tok ∧ ¬ ('x' ∈ tok ∨ 'X' ∈ tok) then
    match parseFloat (tok.takeWhile fun c => c != 'p') with
    | none => none
    | some f =>
      match parseInt (tok.dropWhile fun c => c != 'p').tail with
      | none => none
      | some m => some (Ldexp f m)
  else parseFloat tok

/-- The verb `%g` into a `*float64`. -/
def scanFloat (inp : List Char) : Option (F64 × List Char) :=
  match SkipSpace inp with
  | none => none
  | some [] => none
  | some r => (convertFloat (floatToken r).1).map fun x => (x, (floatToken r).2)

/-- A value stored through one of the pointers passed to `Sscanf`. -/
inductive Scanned
  | int (i : Int)
  | float (x : F64)
  | str (s : String)
deriving DecidableEq, Repr

/-- One step of a format: literal text, or a verb. -/
inductive Directive
  | lit (text : List Char)
  | verb (c : Char)
deriving DecidableEq, Repr

/-- A format cut into its literal runs and its verbs. -/
def directives : List Char → List Directive
  | [] => []
  | [c] => [.lit [c]]
  | c :: v :: t =>
    if c = '%' then .verb v :: directives t
    else
      match directives (v :: t) with
      | .lit l :: r => .lit (c :: l) :: r
      | r => .lit [c] :: r

/-- Scanning of one operand. -/
def scanOne (verb : Char) (inp : List Char) : Option (Scanned × List Char) :=
  if verb = 'd' then (scanInt inp).map fun r => (.int r.1, r.2)
  else if verb = 'g' then (scanFloat inp).map fun r => (.float r.1, r.2)
  else if verb = 's' then (scanString inp).map fun r => (.str r.1, r.2)
  else none

/-- The loop of `doScanf`: the values stored, in the order of the operands, up to
the first step that fails. -/
def doScanf : List Directive → List Char → List Scanned
  | [], _ => []
  | .lit text :: ds, inp =>
    match scanLiteral text inp with
    | none => []
    | some rest => doScanf ds rest
  | .verb c :: ds, inp =>
    match scanOne c inp with
    | none => []
    | some r => r.1 :: doScanf ds r.2

/-- Go's `fmt.Sscanf(str, format, ...)`: the values it stores through its
operands, in order. An operand that is not reached keeps its value. -/
def Sscanf (str : List Char) (format : String) : List Scanned :=
  doScanf (directives format.data) str

/-! ## Package `strings` -/

/-- Go's `strings.Split(s, sep)` for a one-character separator. -/
def Split (s : List Char) (sep : Char) : List (List Char) :=
  match s with
  | [] => [[]]
  | c :: t =>
    if c = sep then [] :: Split t sep
    else
      match Split t sep with
      | [] => [[c]]
      | h :: r => (c :: h) :: r

/-- Go's `strings.Join(elems, sep)` for a one-character separator. -/
def Join (elems : List (List Char)) (sep : Char) : List Char :=
  match elems with
  | [] => []
  | [e] => e
  | e :: r => e ++ sep :: Join r sep

/-- Go's `strings.Contains(s, substr)`. -/
def Contains (s substr : List Char) : Bool :=
  match s with
  | [] => substr.isEmpty
  | c :: t => substr.isPrefixOf (c :: t) || Contains t substr

/-! ## The checkers -/

structure StringValidator where
  Min : Int
  Max : Int
deriving DecidableEq, Repr

structure RegexValidator where
  Pattern : String
deriving DecidableEq, Repr

structure NumberValidator where
  Min : F64
  Max : F64
deriving DecidableEq, Repr

/-- The interface `Validator`: one of the five checkers. -/
inductive Validator
  | default
  | string (v : StringValidator)
  | regex (v : RegexValidator)
  | number (v : NumberValidator)
  | email
deriving DecidableEq, Repr

def DefaultValidator.Validate (_val : Value) : Option Result := some (true, none)

def StringValidator.Validate (v : StringValidator) (val : Value) : Option Result :=
  match val with
  | .str s =>
    let l : Int := (s.length : Int)
    if l < v.Min then
      if v.Min = 1 then some (false, some "不能为空")
      else some (false, some ("至少" ++ String.mk (Itoa v.Min) ++ "位"))
    else if v.Max ≥ v.Min ∧ l > v.Max then
      some (false, some ("最大长度为" ++ String.mk (Itoa v.Max) ++ "位"))
    else some (true, none)
  | _ => none

/-- Go's `regexp.MatchString(pattern, s)`: the pattern is compiled, then looked for
in `s`. -/
def MatchString (L : Library) (pattern s : String) : Except String Bool :=
  match L.regexpCompile pattern with
  | .error e => .error e
  | .ok re => .ok (re.MatchString s)

def RegexValidator.Validate (L : Library) (v : RegexValidator) (val : Value) : Option Result :=
  match val with
  | .str l =>
    if l ≠ "" then
      match MatchString L v.Pattern l with
      | .error err => some (false, some err)
      | .ok matched =>
        if matched then some (true, none)
        else some (false, some "不符合规则")
    else some (true, none)
  | _ => none

/-- The number a value is read as by `NumberValidator.Validate`; a value of another
type leaves `num` at zero. -/
def numOf : Value → F64
  | .float64 x => x
  | .int64 i => F64.ofInt i
  | .int32 i => F64.ofInt i
  | .int i => F64.ofInt i
  | _ => .fin 0

def NumberValidator.Validate (L : Library) (v : NumberValidator) (val : Value) : Option Result :=
  let num := numOf val
  if num.lt v.Min then some (false, some ("必须大于" ++ L.formatV v.Min))
  else if v.Max.ge v.Min && num.gt v.Max then some (false, some ("不能超过" ++ L.formatF2 v.Max))
  else some (true, none)

def EmailValidator.Validate (val : Value) : Option Result :=
  match val with
  | .str s =>
    if !mailRe.MatchString s then some (false, some "is not a valid email address")
    else some (true, none)
  | _ => none

/-- Dynamic dispatch of `Validate` through the interface. -/
def Validator.Validate (L : Library) : Validator → Value → Option Result
  | .default, val => DefaultValidator.Validate val
  | .string v, val => v.Validate val
  | .regex v, val => v.Validate L val
  | .number v, val => v.Validate L val
  | .email, val => EmailValidator.Validate val

/-! ## From a tag to a checker -/

/-- The `i`-th value stored by `Sscanf` when it is an integer, else the zero the
field was initialised with. -/
def intArg (r : List Scanned) (i : Nat) : Int :=
  match r.get? i with
  | some (.int a) => a
  | _ => 0

def floatArg (r : List Scanned) (i : Nat) : F64 :=
  match r.get? i with
  | some (.float a) => a
  | _ => .fin 0

def stringArg (r : List Scanned) (i : Nat) : String :=
  match r.get? i with
  | some (.str a) => a
  | _ => ""

def getValidatorFromTag (tag : String) : Validator :=
  let args := Split tag.data ','
  let arg1 := args.tail
  if args.head? = some "number".data then
    if arg1.length = 2 then
      let r := Sscanf (Join arg1 ',') "min=%g,max=%g"
      .number { Min := floatArg r 0, Max := floatArg r 1 }
    else if arg1.length = 1 then
      if Contains (arg1.headD []) "min".data then
        .number { Min := floatArg (Sscanf (Join arg1 ',') "min=%g") 0, Max := .fin 0 }
      else if Contains (arg1.headD []) "max".data then
        .number { Min := .fin 0, Max := floatArg (Sscanf (Join arg1 ',') "max=%g") 0 }
      else .number { Min := .fin 0, Max := .fin 0 }
    else .number { Min := .fin 0, Max := .fin 0 }
  else if args.head? = some "string".data then
    if arg1.length = 2 then
      let r := Sscanf (Join arg1 ',') "min=%d,max=%d"
      .string { Min := intArg r 0, Max := intArg r 1 }
    else if arg1.length = 1 then
      if Contains (arg1.headD []) "min".data then
        .string { Min := intArg (Sscanf (Join arg1 ',') "min=%d") 0, Max := 0 }
      else if Contains (arg1.headD []) "max".data then
        .string { Min := 0, Max := intArg (Sscanf (Join arg1 ',') "max=%d") 0 }
      else .string { Min := 0, Max := 0 }
    else .string { Min := 0, Max := 0 }
  else if args.head? = some "email".data then .email
  else if args.head? = some "regex".data then
    .regex { Pattern := stringArg (Sscanf (Join arg1 ',') "pattern=%s") 0 }
  else .default

/-! ## The record walker -/

/-- A field of a struct type, as `reflect` describes it: its name, its package path
(empty when the field is exported) and its tag, read as a list of keys with their
values. -/
structure StructField where
  Name : String
  PkgPath : String
  Tag : List (String × String)
deriving DecidableEq, Repr

/-- Go's `StructTag.Get`: the value of the key, the empty string without one. -/
def StructField.Get (f : StructField) (key : String) : String :=
  match f.Tag.lookup key with
  | some v => v
  | none => ""

/-- A field of a struct value: its description and its value. -/
structure Field where
  type : StructField
  value : Value
deriving DecidableEq, Repr

/-- Go's `Value.Interface` on a field: it panics for an unexported field. -/
def Field.Interface (f : Field) : Option Value :=
  if f.type.PkgPath = "" then some f.value else none

/-- The name under which a field is reported. -/
def displayName (f : StructField) : String :=
  if f.Get "msg" ≠ "" then f.Get "msg"
  else if f.Get "json" ≠ "" then f.Get "json"
  else f.Name

/-- The loop of `ValidateStruct` over the fields that are left, `errs` being the
errors collected so far. -/
def validateFields (L : Library) : List Field → List String → Option (List String)
  | [], errs => some errs
  | f :: rest, errs =>
    let tag := f.type.Get "validate"
    if tag = "" ∨ tag = "-" then validateFields L rest errs
    else
      match f.Interface with
      | none => none
      | some val =>
        match (getValidatorFromTag tag).Validate L val with
        | none => none
        | some r =>
          if !r.1 && r.2.isSome then
            validateFields L rest (errs ++ [displayName f.type ++ r.2.getD ""])
          else validateFields L rest errs

/-- The function `ValidateStruct` on a struct value given by its fields in the
order of their declaration: the messages of the errors returned, `none` when the
call panics. -/
def ValidateStruct (L : Library) (s : List Field) : Option (List String) :=
  validateFields L s []

/-! ## Notions used to state the properties -/

/-- The call returned, and its first result is `true`. -/
def isValid (r : Option Result) : Bool :=
  match r with
  | some (true, _) => true
  | _ => false

def isLowerLetter (c : Char) : Bool := decide ('a' ≤ c) && decide (c ≤ 'z')

def isUpperLetter (c : Char) : Bool := decide ('A' ≤ c) && decide (c ≤ 'Z')

/-- A word character: an ASCII letter, a digit or the underscore. -/
def isWordChar (c : Char) : Bool := isDigit c || isUpperLetter c || c == '_' || isLowerLetter c

/-- A character of the part of an address before the `@`. -/
def isLocalChar (c : Char) : Bool := isWordChar c || c == '+' || c == '-' || c == '.'

/-- A character of the first label of the domain. -/
def isDomainChar (c : Char) : Bool := isLowerLetter c || isDigit c || c == '-'

/-- The shape of an address: a non-empty local part, `@`, a non-empty first label,
any number of labels each after a `.`, and a last label of lowercase letters after
a `.`. The characters allowed in the labels between the first and the last are
those of `mid`. -/
def EmailForm (mid : Char → Bool) (s : List Char) : Prop :=
  ∃ (loc d0 : List Char) (mids : List (List Char)) (tld : List Char),
    s = loc ++ '@' :: d0 ++ (mids.map fun m => '.' :: m).flatten ++ '.' :: tld ∧
    (loc ≠ [] ∧ ∀ c ∈ loc, isLocalChar c = true) ∧
    (d0 ≠ [] ∧ ∀ c ∈ d0, isDomainChar c = true) ∧
    (∀ m ∈ mids, m ≠ [] ∧ ∀ c ∈ m, mid c = true) ∧
    (tld ≠ [] ∧ ∀ c ∈ tld, isLowerLetter c = true)

/-- A library for the examples: its parser knows the pattern `a` and reports every
other pattern as the malformed pattern `(`. -/
def sampleLibrary : Library where
  regexpCompile := fun p =>
    if p = "a" then .ok (.lit 'a') else .error "error parsing regexp: missing closing ): `(`"
  formatV := fun _ => ""
  formatF2 := fun _ => ""

/-- A decimal numeral: an optional minus sign, digits, and possibly a point
followed by digits. -/
def PlainNumeral (t : List Char) : Prop :=
  ∃ (sg : List Char) (d : Char) (ds fs : List Char),
    (sg = [] ∨ sg = ['-']) ∧ d ∈ decimalDigits ∧ (∀ c ∈ ds, c ∈ decimalDigits) ∧
    (∀ c ∈ fs, c ∈ decimalDigits) ∧ (t = sg ++ d :: ds ∨ t = sg ++ d :: (ds ++ '.' :: fs))

/-- The field carries a `validate` tag other than the empty one and `-`: the walker
does not skip it. -/
def annotated (f : Field) : Bool :=
  decide (f.type.Get "validate" ≠ "") && decide (f.type.Get "validate" ≠ "-")

/-- What the checker built from the tag of a field returns on the value of the
field; `none` when reading the value, or the checker, panics. -/
def checkerResult (L : Library) (f : Field) : Option Result :=
  match f.Interface with
  | none => none
  | some val => (getValidatorFromTag (f.type.Get "validate")).Validate L val

/-- The field is annotated and its checker fails: it returns `false`. -/
def fails (L : Library) (f : Field) : Bool :=
  annotated f &&
    match checkerResult L f with
    | some (false, _) => true
    | _ => false

/-- The entry of a failing field: its display name, then the message of the error
of its checker. -/
def entryOf (L : Library) (f : Field) : String :=
  displayName f.type ++
    match checkerResult L f with
    | some (_, some msg) => msg
    | _ => ""

/-- The walker gets past the field: it skips it, or its checker returns. -/
def passable (L : Library) (f : Field) : Bool :=
  !annotated f || (checkerResult L f).isSome

/-- The checker asserts that the value is a string: the Length, Pattern and Email
checkers. -/
def needsString : Validator → Bool
  | .string _ => true
  | .regex _ => true
  | .email => true
  | _ => false

def isString : Value → Bool
  | .str _ => true
  | _ => false

/-- The value of the field has the type its checker asserts. -/
def wellTyped (f : Field) : Bool :=
  !needsString (getValidatorFromTag (f.type.Get "validate")) || isString f.value

/-! # Theorems -/

/-! ## Range checker -/

theorem number_validate_general (L : Library) (v : NumberValidator) (val : Value) :
    isValid (v.Validate L val) = true ↔
      ((numOf val).lt v.Min = false ∧ ¬ (v.Max.ge v.Min = true ∧ (numOf val).gt v.Max = true)) := by
  unfold NumberValidator.Validate
  by_cases h1 : (numOf val).lt v.Min = true
  · simp [h1, isValid]
  · by_cases h2 : (v.Max.ge v.Min && (numOf val).gt v.Max) = true
    · simp only [h1, h2, if_true, if_false, isValid]
      simp at h2
      simp [h2]
    · simp only [h1, h2, if_false, isValid]
      simp at h1 h2
      simp [h1]
      exact h2

theorem F64.le_iff_not_lt (a b : F64) (ha : a.isNaN = false) (hb : b.isNaN = false) :
    a.le b = true ↔ b.lt a = false := by
  simp [F64.le, ha, hb]

theorem F64.lt_iff_not_ge (a b : F64) (ha : a.isNaN = false) (hb : b.isNaN = false) :
    a.lt b = true ↔ a.ge b = false := by
  simp [F64.ge, F64.le, ha, hb]

theorem F64.nan_lt (a : F64) : F64.lt .nan a = false := by
  cases a <;> rfl

theorem F64.lt_nan (a : F64) : a.lt .nan = false := by
  cases a <;> rfl

theorem F64.ofInt_isNaN (i : Int) : (F64.ofInt i).isNaN = false := by
  unfold F64.ofInt F64.ofRat
  simp only []
  split <;> split <;> rfl

/-- C1 (as amended): when none of `Min`, `Max` and the value is NaN,
`NumberValidator.Validate` accepts the value exactly when `Min <= v` and
(`Max < Min` or `v <= Max`), the value being read as a float64. -/
theorem number_validate_iff (L : Library) (v : NumberValidator) (val : Value)
    (hx : (numOf val).isNaN = false) (hmin : v.Min.isNaN = false) (hmax : v.Max.isNaN = false) :
    isValid (v.Validate L val) = true ↔
      (v.Min.le (numOf val) = true ∧ (v.Max.lt v.Min = true ∨ (numOf val).le v.Max = true)) := by
  rw [number_validate_general, F64.le_iff_not_lt _ _ hmin hx, F64.lt_iff_not_ge _ _ hmax hmin,
    F64.le_iff_not_lt _ _ hx hmax]
  simp only [F64.gt]
  constructor
  · rintro ⟨h1, h2⟩
    refine ⟨h1, ?_⟩
    by_cases h : v.Max.ge v.Min = true
    · right
      simpa [h] using h2
    · left
      simpa using h
  · rintro ⟨h1, h2⟩
    refine ⟨h1, ?_⟩
    rintro ⟨h3, h4⟩
    rcases h2 with h2 | h2 <;> simp_all

/-- Witness of C1: the range 0 to 10 accepts the integer 7, which lies in it. -/
theorem number_validate_iff_witness :
    isValid (NumberValidator.Validate sampleLibrary ⟨.fin 0, F64.ofInt 10⟩ (.int 7)) = true :=
  (number_validate_iff sampleLibrary ⟨.fin 0, F64.ofInt 10⟩ (.int 7)
    (F64.ofInt_isNaN 7) (Eq.refl false) (F64.ofInt_isNaN 10)).2
    ⟨by decide!, Or.inr (by decide!)⟩

/-- Counterexample to C1 as stated: the range 0 to 10 accepts the value NaN,
although `0 <= NaN` is false. -/
theorem number_validate_accepts_nan :
    (∀ L : Library,
      NumberValidator.Validate L ⟨.fin 0, F64.ofInt 10⟩ (.float64 .nan) = some (true, none)) ∧
    F64.le (.fin 0) (numOf (.float64 .nan)) = false := by
  constructor
  · intro L
    simp [NumberValidator.Validate, numOf, F64.gt, F64.lt_nan, F64.nan_lt]
  · simp [numOf, F64.le, F64.isNaN]

/-! ## Length checker -/

theorem stringValidator_validate_str (v : StringValidator) (s : String) :
    v.Validate (.str s) =
      if (s.length : Int) < v.Min then
        (if v.Min = 1 then some (false, some "不能为空")
         else some (false, some ("至少" ++ String.mk (Itoa v.Min) ++ "位")))
      else if v.Max ≥ v.Min ∧ (s.length : Int) > v.Max then
        some (false, some ("最大长度为" ++ String.mk (Itoa v.Max) ++ "位"))
      else some (true, none) := rfl

theorem StringValidator.isValid_iff (v : StringValidator) (s : String) :
    isValid (v.Validate (.str s)) = true ↔
      (v.Min ≤ (s.length : Int) ∧ (v.Max < v.Min ∨ (s.length : Int) ≤ v.Max)) := by
  rw [stringValidator_validate_str]
  by_cases h1 : (s.length : Int) < v.Min
  · by_cases h0 : v.Min = 1
    · rw [if_pos h1, if_pos h0]
      simp only [isValid]
      constructor
      · intro h; cases h
      · intro h; omega
    · rw [if_pos h1, if_neg h0]
      simp only [isValid]
      constructor
      · intro h; cases h
      · intro h; omega
  · by_cases h2 : v.Max ≥ v.Min ∧ (s.length : Int) > v.Max
    · simp only [h1, h2, if_true, if_false, isValid]
      simp; omega
    · simp only [h1, h2, if_false, isValid]
      simp; omega

/-- C2: with `n` the number of characters of `s`, `StringValidator.Validate`
accepts `s` exactly when `Min <= n` and (`Max < Min` or `n <= Max`); in particular
it accepts every `s` with `n` between `Min` and `Max`, and every `s` with
`n >= Min` when `Max < Min`. -/
theorem string_validate_iff (v : StringValidator) (s : String) :
    (isValid (v.Validate (.str s)) = true ↔
      (v.Min ≤ (s.length : Int) ∧ (v.Max < v.Min ∨ (s.length : Int) ≤ v.Max))) ∧
    (v.Min ≤ (s.length : Int) → (s.length : Int) ≤ v.Max →
      v.Validate (.str s) = some (true, none)) ∧
    (v.Min ≤ (s.length : Int) → v.Max < v.Min → v.Validate (.str s) = some (true, none)) := by
  refine ⟨StringValidator.isValid_iff v s, ?_, ?_⟩
  · intro h1 h2
    have h3 : ¬ ((s.length : Int) < v.Min) := by omega
    have h4 : ¬ (v.Max ≥ v.Min ∧ (s.length : Int) > v.Max) := by omega
    rw [stringValidator_validate_str]
    simp only [h3, h4, if_false]
  · intro h1 h2
    have h3 : ¬ ((s.length : Int) < v.Min) := by omega
    have h4 : ¬ (v.Max ≥ v.Min ∧ (s.length : Int) > v.Max) := by omega
    rw [stringValidator_validate_str]
    simp only [h3, h4, if_false]

/-- Witness of C2: a string of three characters (six bytes) passes the bounds
2 to 3, and passes the lower bound 2 when the upper bound 0 is below it. -/
theorem string_validate_iff_witness :
    StringValidator.Validate ⟨2, 3⟩ (.str "aé位") = some (true, none) ∧
    StringValidator.Validate ⟨2, 0⟩ (.str "aé位") = some (true, none) ∧
    "aé位".utf8ByteSize = 6 :=
  ⟨(string_validate_iff ⟨2, 3⟩ "aé位").2.1 (by decide) (by decide),
   (string_validate_iff ⟨2, 0⟩ "aé位").2.2 (by decide) (by decide), by decide⟩

/-- C3: a string shorter than `Min` fails; for `Min > 1` the message contains the
decimal rendering of `Min`, for `Min = 1` it is the fixed "empty" message, which
does not contain it. A string at least `Min` and more than `Max >= Min` characters
long fails with the maximum-length message, which contains the decimal rendering of
`Max`. -/
theorem string_validate_messages (v : StringValidator) (s : String) :
    ((s.length : Int) < v.Min →
      ∃ msg, v.Validate (.str s) = some (false, some msg) ∧
        (v.Min = 1 → msg = "不能为空" ∧ ¬ (Itoa v.Min <:+: msg.data)) ∧
        (1 < v.Min →
          msg = "至少" ++ String.mk (Itoa v.Min) ++ "位" ∧ Itoa v.Min <:+: msg.data)) ∧
    (v.Min ≤ (s.length : Int) → v.Max ≥ v.Min → (s.length : Int) > v.Max →
      ∃ msg, v.Validate (.str s) = some (false, some msg) ∧
        msg = "最大长度为" ++ String.mk (Itoa v.Max) ++ "位" ∧ Itoa v.Max <:+: msg.data) := by
  rw [stringValidator_validate_str]
  refine ⟨?_, ?_⟩
  · intro h1
    by_cases h0 : v.Min = 1
    · refine ⟨"不能为空", by rw [if_pos h1, if_pos h0], fun _ => ⟨rfl, ?_⟩, fun h => by omega⟩
      rw [h0]; decide
    · refine ⟨_, by simp only [h1, h0, if_true, if_false], fun h => absurd h h0,
        fun _ => ⟨rfl, ?_⟩⟩
      simp only [String.data_append]
      exact ⟨"至少".data, "位".data, rfl⟩
  · intro h1 h2 h3
    have h4 : ¬ ((s.length : Int) < v.Min) := by omega
    refine ⟨_, by simp only [h4, h2, h3, and_self, if_true, if_false], rfl, ?_⟩
    simp only [String.data_append]
    exact ⟨"最大长度为".data, "位".data, rfl⟩

/-- Witness of C3: the three messages at concrete bounds and strings. -/
theorem string_validate_messages_witness :
    (∃ msg, StringValidator.Validate ⟨3, 5⟩ (.str "ab") = some (false, some msg) ∧
        msg = "至少3位") ∧
    (∃ msg, StringValidator.Validate ⟨1, 5⟩ (.str "") = some (false, some msg) ∧
        msg = "不能为空") ∧
    (∃ msg, StringValidator.Validate ⟨1, 2⟩ (.str "abc") = some (false, some msg) ∧
        msg = "最大长度为2位") := by
  refine ⟨?_, ?_, ?_⟩
  · obtain ⟨msg, h, -, h2⟩ := (string_validate_messages ⟨3, 5⟩ "ab").1 (by decide)
    exact ⟨msg, h, (h2 (by decide)).1.trans (by decide)⟩
  · obtain ⟨msg, h, h1, -⟩ := (string_validate_messages ⟨1, 5⟩ "").1 (by decide)
    exact ⟨msg, h, (h1 rfl).1⟩
  · obtain ⟨msg, h, h1, -⟩ :=
      (string_validate_messages ⟨1, 2⟩ "abc").2 (by decide) (by decide) (by decide)
    exact ⟨msg, h, h1.trans (by decide)⟩

/-! ## Pattern checker -/

/-- C4: whatever the pattern, and whatever the parser of patterns makes of it,
`RegexValidator.Validate` accepts the empty string; the result does not depend on
the parser, which is not called. -/
theorem regex_validate_empty (L : Library) (p : String) :
    RegexValidator.Validate L ⟨p⟩ (.str "") = some (true, none) := by
  simp [RegexValidator.Validate]

theorem mem_splits (w : List Char) (p : List Char × List Char) :
    p ∈ splits w ↔ p.1 ++ p.2 = w := by
  induction w generalizing p with
  | nil =>
    obtain ⟨u, v⟩ := p
    simp [splits]
  | cons c t ih =>
    obtain ⟨u, v⟩ := p
    simp only [splits, List.mem_cons, List.mem_map, Prod.mk.injEq]
    constructor
    · rintro (⟨rfl, rfl⟩ | ⟨q, hq, rfl, rfl⟩)
      · rfl
      · simp [(ih q).1 hq]
    · intro h
      cases u with
      | nil => left; exact ⟨rfl, by simpa using h⟩
      | cons d u =>
        right
        simp only [List.cons_append, List.cons.injEq] at h
        exact ⟨(u, v), (ih (u, v)).2 h.2, by simp [h.1], rfl⟩

theorem any_splits (w : List Char) (f : List Char × List Char → Bool) :
    (splits w).any f = true ↔ ∃ u v, u ++ v = w ∧ f (u, v) = true := by
  simp only [List.any_eq_true, mem_splits]
  constructor
  · rintro ⟨⟨u, v⟩, h1, h2⟩
    exact ⟨u, v, h1, h2⟩
  · rintro ⟨u, v, h1, h2⟩
    exact ⟨(u, v), h1, h2⟩

theorem Regex.MatchString_iff (re : Regex) (s : String) :
    re.MatchString s = true ↔
      ∃ x w y, s.data = x ++ w ++ y ∧ re.matchesAt x.getLast? w y.head? = true := by
  unfold Regex.MatchString
  rw [any_splits]
  constructor
  · rintro ⟨x, r, h1, h2⟩
    rw [any_splits] at h2
    obtain ⟨w, y, h3, h4⟩ := h2
    simp only at h3 h4
    exact ⟨x, w, y, by rw [← h1, ← h3, List.append_assoc], h4⟩
  · rintro ⟨x, w, y, h1, h2⟩
    refine ⟨x, w ++ y, by rw [h1, List.append_assoc], ?_⟩
    rw [any_splits]
    exact ⟨w, y, rfl, h2⟩

theorem RegexValidator.Validate_ok (L : Library) (p s : String) (re : Regex)
    (hc : L.regexpCompile p = .ok re) (hs : s ≠ "") :
    RegexValidator.Validate L ⟨p⟩ (.str s) =
      if re.MatchString s then some (true, none) else some (false, some "不符合规则") := by
  simp [RegexValidator.Validate, MatchString, hc, hs]

/-- C5 (as amended): for a pattern that compiles and a non-empty string `s`,
`RegexValidator.Validate` accepts `s` exactly when the pattern matches some piece
`w` of `s = x ++ w ++ y` (the pattern is looked for anywhere in `s`, it need not
match the whole of `s`); when it does not accept, it fails with the fixed "does not
match" message. -/
theorem regex_validate_searches (L : Library) (p s : String) (re : Regex)
    (hc : L.regexpCompile p = .ok re) (hs : s ≠ "") :
    (RegexValidator.Validate L ⟨p⟩ (.str s) = some (true, none) ↔
      ∃ x w y, s.data = x ++ w ++ y ∧ re.matchesAt x.getLast? w y.head? = true) ∧
    (RegexValidator.Validate L ⟨p⟩ (.str s) ≠ some (true, none) →
      RegexValidator.Validate L ⟨p⟩ (.str s) = some (false, some "不符合规则")) := by
  rw [RegexValidator.Validate_ok L p s re hc hs, ← Regex.MatchString_iff]
  by_cases h : re.MatchString s = true
  · simp [h]
  · simp [h]

/-- Witness of C5: the pattern `a` is found inside `bab`. -/
theorem regex_validate_searches_witness :
    RegexValidator.Validate sampleLibrary ⟨"a"⟩ (.str "bab") = some (true, none) :=
  (regex_validate_searches sampleLibrary "a" "bab" (.lit 'a') rfl (by decide)).1.2
    ⟨['b'], ['a'], ['b'], rfl, by decide⟩

/-- Counterexample to C5 as stated: with the pattern `a`, which parses to the
one-character literal, `bab` is accepted although `a` does not match the whole of
`bab`. -/
theorem regex_validate_not_full_match :
    (∀ L : Library, L.regexpCompile "a" = .ok (.lit 'a') →
      RegexValidator.Validate L ⟨"a"⟩ (.str "bab") = some (true, none)) ∧
    (Regex.lit 'a').fullMatch "bab" = false := by
  constructor
  · intro L hc
    rw [RegexValidator.Validate_ok L "a" "bab" _ hc (by decide)]
    decide
  · decide

theorem validateFields_cons (L : Library) (f : Field) (rest : List Field) (errs : List String) :
    validateFields L (f :: rest) errs =
      if f.type.Get "validate" = "" ∨ f.type.Get "validate" = "-" then validateFields L rest errs
      else
        match f.Interface with
        | none => none
        | some val =>
          match (getValidatorFromTag (f.type.Get "validate")).Validate L val with
          | none => none
          | some r =>
            if !r.1 && r.2.isSome then
              validateFields L rest (errs ++ [displayName f.type ++ r.2.getD ""])
            else validateFields L rest errs := by
  rw [validateFields]

theorem validateFields_errs (L : Library) (fs : List Field) (errs : List String) :
    validateFields L fs errs = (validateFields L fs []).map (fun r => errs ++ r) := by
  induction fs generalizing errs with
  | nil => simp [validateFields]
  | cons f rest ih =>
    rw [validateFields_cons, validateFields_cons]
    split
    · exact ih errs
    · split
      · rfl
      · split
        · rfl
        · split
          · rw [ih (errs ++ _), ih ([] ++ _)]
            simp [Option.map_map, Function.comp_def]
          · exact ih errs

theorem validateFields_append (L : Library) (pre post : List Field) (errs : List String) :
    validateFields L (pre ++ post) errs =
      (validateFields L pre errs).bind (validateFields L post) := by
  induction pre generalizing errs with
  | nil => simp [validateFields]
  | cons f rest ih =>
    simp only [List.cons_append]
    rw [validateFields_cons, validateFields_cons]
    split
    · exact ih errs
    · split
      · rfl
      · split
        · rfl
        · split
          · exact ih _
          · exact ih errs

/-! ## Email checker -/

theorem matchesAt_cat (a b : Regex) (x : Option Char) (w : List Char) (y : Option Char) :
    (Regex.cat a b).matchesAt x w y = true ↔
      ∃ u v, u ++ v = w ∧ a.matchesAt x u (ctxBefore v y) = true ∧
        b.matchesAt (ctxAfter x u) v y = true := by
  rw [Regex.matchesAt, any_splits]
  simp only [Bool.and_eq_true]

theorem iterMatches_iff (m : Option Char → List Char → Option Char → Bool)
    (P : List Char → Prop) (hm : ∀ x u y, m x u y = true ↔ P u) :
    ∀ (n : Nat) (x : Option Char) (w : List Char) (y : Option Char), w.length ≤ n →
      (iterMatches m n x w y = true ↔
        ∃ ps : List (List Char), ps.flatten = w ∧ ∀ p ∈ ps, p ≠ [] ∧ P p) := by
  intro n
  induction n with
  | zero =>
    intro x w y hw
    have hw0 : w = [] := List.length_eq_zero.mp (Nat.le_zero.mp hw)
    subst hw0
    simp only [iterMatches, List.isEmpty_nil, true_iff]
    exact ⟨[], rfl, by simp⟩
  | succ n ih =>
    intro x w y hw
    rw [iterMatches, Bool.or_eq_true, any_splits]
    constructor
    · rintro (h | ⟨u, v, rfl, h⟩)
      · have hw0 : w = [] := by simpa using h
        exact ⟨[], hw0.symm, by simp⟩
      · simp only [Bool.and_eq_true, Bool.not_eq_true', List.isEmpty_eq_false] at h
        obtain ⟨⟨hu, hmu⟩, hit⟩ := h
        have hu' : u ≠ [] := by simpa using hu
        have hlen : v.length ≤ n := by
          have : 0 < u.length := List.length_pos.mpr hu'
          simp only [List.length_append] at hw
          omega
        obtain ⟨ps, hps, hall⟩ := (ih _ v y hlen).1 hit
        refine ⟨u :: ps, by simp [hps], ?_⟩
        intro p hp
        rcases List.mem_cons.mp hp with rfl | hp
        · exact ⟨hu', (hm _ _ _).1 hmu⟩
        · exact hall p hp
    · rintro ⟨ps, hps, hall⟩
      cases ps with
      | nil =>
        left
        simp only [List.flatten_nil] at hps
        simp [← hps]
      | cons p ps =>
        right
        have hp := hall p (List.mem_cons_self _ _)
        refine ⟨p, ps.flatten, by simpa using hps, ?_⟩
        simp only [Bool.and_eq_true, Bool.not_eq_true', List.isEmpty_eq_false]
        have hlen : ps.flatten.length ≤ n := by
          have : 0 < p.length := List.length_pos.mpr hp.1
          rw [← hps] at hw
          simp only [List.flatten_cons, List.length_append] at hw
          omega
        refine ⟨⟨by simpa using hp.1, (hm _ _ _).2 hp.2⟩, ?_⟩
        exact (ih _ _ y hlen).2 ⟨ps, rfl, fun q hq => hall q (List.mem_cons_of_mem _ hq)⟩

theorem matchesAt_star (a : Regex) (P : List Char → Prop)
    (hm : ∀ x u y, a.matchesAt x u y = true ↔ P u)
    (x : Option Char) (w : List Char) (y : Option Char) :
    (Regex.star a).matchesAt x w y = true ↔
      ∃ ps : List (List Char), ps.flatten = w ∧ ∀ p ∈ ps, p ≠ [] ∧ P p := by
  rw [Regex.matchesAt]
  exact iterMatches_iff _ P hm _ _ _ _ (Nat.le_refl _)

theorem matchesAt_plus (a : Regex) (P : List Char → Prop)
    (hm : ∀ x u y, a.matchesAt x u y = true ↔ P u)
    (x : Option Char) (w : List Char) (y : Option Char) :
    (Regex.plus a).matchesAt x w y = true ↔
      ∃ u ps, u ++ List.flatten ps = w ∧ P u ∧ ∀ p ∈ ps, p ≠ [] ∧ P p := by
  rw [Regex.matchesAt, any_splits]
  constructor
  · rintro ⟨u, v, rfl, h⟩
    simp only [Bool.and_eq_true] at h
    obtain ⟨ps, hps, hall⟩ := (iterMatches_iff _ P hm _ _ _ _ (Nat.le_refl _)).1 h.2
    exact ⟨u, ps, by rw [hps], (hm _ _ _).1 h.1, hall⟩
  · rintro ⟨u, ps, rfl, hu, hall⟩
    refine ⟨u, ps.flatten, rfl, ?_⟩
    simp only [Bool.and_eq_true]
    exact ⟨(hm _ _ _).2 hu, (iterMatches_iff _ P hm _ _ _ _ (Nat.le_refl _)).2 ⟨ps, rfl, hall⟩⟩

theorem matchesAt_cls (rs : List (Char × Char)) (x : Option Char) (w : List Char)
    (y : Option Char) :
    (Regex.cls rs).matchesAt x w y = true ↔ ∃ c, w = [c] ∧ inRanges rs c = true := by
  cases w with
  | nil => simp [Regex.matchesAt]
  | cons c t =>
    cases t with
    | nil => simp [Regex.matchesAt]
    | cons d t => simp [Regex.matchesAt]

theorem matchesAt_plus_cls (rs : List (Char × Char)) (x : Option Char) (w : List Char)
    (y : Option Char) :
    (Regex.plus (.cls rs)).matchesAt x w y = true ↔ w ≠ [] ∧ ∀ c ∈ w, inRanges rs c = true := by
  rw [matchesAt_plus _ _ (matchesAt_cls rs)]
  constructor
  · rintro ⟨u, ps, rfl, ⟨c, rfl, hc⟩, hall⟩
    refine ⟨by simp, ?_⟩
    intro d hd
    simp only [List.singleton_append, List.mem_cons, List.mem_flatten] at hd
    rcases hd with rfl | ⟨p, hp, hd⟩
    · exact hc
    · obtain ⟨-, e, rfl, he⟩ := hall p hp
      simp only [List.mem_singleton] at hd
      rw [hd]; exact he
  · rintro ⟨hw, hall⟩
    cases w with
    | nil => exact absurd rfl hw
    | cons c t =>
      refine ⟨[c], t.map fun d => [d], ?_, ⟨c, rfl, hall c (List.mem_cons_self _ _)⟩, ?_⟩
      · simp only [List.singleton_append, List.cons.injEq, true_and]
        clear hall hw
        induction t with
        | nil => rfl
        | cons d t ih => simp [ih]
      · intro p hp
        simp only [List.mem_map] at hp
        obtain ⟨d, hd, rfl⟩ := hp
        exact ⟨by simp, d, rfl, hall d (List.mem_cons_of_mem _ hd)⟩

theorem inRanges_single (a c : Char) : inRanges [(a, a)] c = true ↔ c = a := by
  simp only [inRanges, List.any_cons, List.any_nil, Bool.or_false, Bool.and_eq_true,
    decide_eq_true_eq]
  constructor
  · rintro ⟨h1, h2⟩
    exact le_antisymm h2 h1
  · rintro rfl
    exact ⟨le_refl _, le_refl _⟩

theorem matchesAt_lit (a : Char) (x : Option Char) (w : List Char) (y : Option Char) :
    (Regex.lit a).matchesAt x w y = true ↔ w = [a] := by
  rw [Regex.lit, matchesAt_cls]
  constructor
  · rintro ⟨c, rfl, hc⟩
    rw [(inRanges_single a c).1 hc]
  · rintro rfl
    exact ⟨a, rfl, (inRanges_single a a).2 rfl⟩

theorem inRanges_cons (r : Char × Char) (rs : List (Char × Char)) (c : Char) :
    inRanges (r :: rs) c = ((decide (r.1 ≤ c) && decide (c ≤ r.2)) || inRanges rs c) := rfl

theorem inRanges_nil (c : Char) : inRanges [] c = false := rfl

theorem range_single (a c : Char) : (decide (a ≤ c) && decide (c ≤ a)) = (c == a) := by
  have h := inRanges_single a c
  rw [inRanges_cons, inRanges_nil, Bool.or_false] at h
  by_cases hc : c = a
  · rw [h.2 hc]; simp [hc]
  · have h1 : (decide (a ≤ c) && decide (c ≤ a)) = false := by
      cases hb : (decide (a ≤ c) && decide (c ≤ a))
      · rfl
      · exact absurd (h.1 hb) hc
    rw [h1]; simp [hc]

theorem inRanges_lower (c : Char) : inRanges [('a', 'z')] c = isLowerLetter c := by
  simp only [inRanges_cons, inRanges_nil, Bool.or_false, isLowerLetter]

theorem inRanges_domain (c : Char) :
    inRanges [('a', 'z'), ('0', '9'), ('-', '-')] c = isDomainChar c := by
  simp only [inRanges_cons, inRanges_nil, Bool.or_false, isDomainChar, isLowerLetter, isDigit,
    range_single, Bool.or_assoc]

theorem inRanges_local (c : Char) :
    inRanges (wordRanges ++ [('+', '+'), ('-', '-'), ('.', '.')]) c = isLocalChar c := by
  simp only [wordRanges, List.cons_append, List.nil_append, inRanges_cons, inRanges_nil,
    Bool.or_false, isLocalChar, isWordChar, isLowerLetter, isUpperLetter, isDigit,
    range_single, Bool.or_assoc]

/-- A label after a `.`: the group of `mailRe`. -/
theorem matchesAt_dotLabel (x : Option Char) (w : List Char) (y : Option Char) :
    (Regex.group (.cat (.lit '.') (.plus (.cls [('a', 'z')])))).matchesAt x w y = true ↔
      ∃ l, w = '.' :: l ∧ l ≠ [] ∧ ∀ c ∈ l, isLowerLetter c = true := by
  rw [Regex.matchesAt, matchesAt_cat]
  simp only [matchesAt_lit, matchesAt_plus_cls, inRanges_lower]
  constructor
  · rintro ⟨u, v, rfl, rfl, h⟩
    exact ⟨v, rfl, h⟩
  · rintro ⟨l, rfl, h⟩
    exact ⟨['.'], l, rfl, rfl, h⟩

theorem matchesAt_dotLabels (x : Option Char) (w : List Char) (y : Option Char) :
    (Regex.star (.group (.cat (.lit '.') (.plus (.cls [('a', 'z')]))))).matchesAt x w y = true ↔
      ∃ mids : List (List Char), w = (mids.map fun m => '.' :: m).flatten ∧
        ∀ m ∈ mids, m ≠ [] ∧ ∀ c ∈ m, isLowerLetter c = true := by
  rw [matchesAt_star _ _ matchesAt_dotLabel]
  constructor
  · rintro ⟨ps, rfl, hall⟩
    refine ⟨ps.map List.tail, ?_, ?_⟩
    · congr 1
      rw [List.map_map]
      refine ((List.map_congr_left fun p hp => ?_).trans (List.map_id ps)).symm
      obtain ⟨-, l, rfl, -⟩ := hall p hp
      rfl
    · intro m hm
      simp only [List.mem_map] at hm
      obtain ⟨p, hp, rfl⟩ := hm
      obtain ⟨-, l, rfl, h⟩ := hall p hp
      exact h
  · rintro ⟨mids, rfl, hall⟩
    refine ⟨mids.map fun m => '.' :: m, rfl, ?_⟩
    intro p hp
    simp only [List.mem_map] at hp
    obtain ⟨m, hm, rfl⟩ := hp
    exact ⟨by simp, m, rfl, hall m hm⟩

theorem matchesAt_beginText (x : Option Char) (w : List Char) (y : Option Char) :
    Regex.beginText.matchesAt x w y = true ↔ w = [] ∧ x = none := by
  simp [Regex.matchesAt]

theorem matchesAt_endText (x : Option Char) (w : List Char) (y : Option Char) :
    Regex.endText.matchesAt x w y = true ↔ w = [] ∧ y = none := by
  simp [Regex.matchesAt]

theorem mailRe_matchesAt (x : Option Char) (w : List Char) (y : Option Char) :
    mailRe.matchesAt x w y = true ↔ x = none ∧ y = none ∧ EmailForm isLowerLetter w := by
  simp only [mailRe, matchesAt_cat, matchesAt_lit, matchesAt_plus_cls, matchesAt_dotLabels,
    matchesAt_beginText, matchesAt_endText, inRanges_lower, inRanges_domain, inRanges_local]
  constructor
  · rintro ⟨u1, v1, rfl, ⟨rfl, hx⟩, u2, v2, rfl, hloc, u3, v3, rfl, rfl, u4, v4, rfl, hd0,
      u5, v5, rfl, ⟨mids, rfl, hmids⟩, u6, v6, rfl, rfl, u7, v7, rfl, htld, rfl, hy⟩
    refine ⟨hx, hy, u2, u4, mids, u7, ?_, hloc, hd0, hmids, htld⟩
    simp
  · rintro ⟨hx, hy, loc, d0, mids, tld, rfl, hloc, hd0, hmids, htld⟩
    exact ⟨[], _, rfl, ⟨rfl, hx⟩,
      loc, '@' :: (d0 ++ ((mids.map fun m => '.' :: m).flatten ++ '.' :: tld)), by simp, hloc,
      ['@'], d0 ++ ((mids.map fun m => '.' :: m).flatten ++ '.' :: tld), rfl, rfl,
      d0, (mids.map fun m => '.' :: m).flatten ++ '.' :: tld, rfl, hd0,
      (mids.map fun m => '.' :: m).flatten, '.' :: tld, rfl, ⟨mids, rfl, hmids⟩,
      ['.'], tld, rfl, rfl, tld, [], by simp, htld, rfl, hy⟩

theorem mailRe_MatchString (s : String) :
    mailRe.MatchString s = true ↔ EmailForm isLowerLetter s.data := by
  rw [Regex.MatchString_iff]
  simp only [mailRe_matchesAt]
  constructor
  · rintro ⟨x, w, y, hs, hx, hy, h⟩
    have hx0 : x = [] := List.getLast?_eq_none_iff.mp hx
    have hy0 : y = [] := List.head?_eq_none_iff.mp hy
    subst hx0 hy0
    simpa [hs] using h
  · intro h
    exact ⟨[], s.data, [], by simp, rfl, rfl, h⟩

theorem emailValidator_validate_str (s : String) :
    EmailValidator.Validate (.str s) =
      if mailRe.MatchString s = true then some (true, none)
      else some (false, some "is not a valid email address") := by
  simp only [EmailValidator.Validate]
  cases mailRe.MatchString s <;> rfl

/-- C8 (as amended): `EmailValidator.Validate` accepts `s` exactly when the whole
of `s` is: one or more characters each a word character, `+`, `-` or `.`; then
`@`; then a non-empty label of lowercase letters, digits and hyphens; then zero or
more groups of `.` followed by a non-empty label of lowercase letters; then `.`
followed by a non-empty label of lowercase letters. Otherwise it fails with "is not
a valid email address". -/
theorem email_validate_iff (s : String) :
    (EmailValidator.Validate (.str s) = some (true, none) ↔ EmailForm isLowerLetter s.data) ∧
    (¬ EmailForm isLowerLetter s.data →
      EmailValidator.Validate (.str s) = some (false, some "is not a valid email address")) := by
  rw [emailValidator_validate_str, ← mailRe_MatchString]
  by_cases h : mailRe.MatchString s = true
  · simp [h]
  · simp [h]

/-- C7: `EmailValidator.Validate` accepts `user.name+tag@sub.example.com` and
rejects `not-an-email` with the message "is not a valid email address". -/
theorem email_examples :
    EmailValidator.Validate (.str "user.name+tag@sub.example.com") = some (true, none) ∧
    EmailValidator.Validate (.str "not-an-email") =
      some (false, some "is not a valid email address") := by
  constructor
  · rw [emailValidator_validate_str, if_pos]
    rw [mailRe_MatchString]
    refine ⟨"user.name+tag".data, "sub".data, ["example".data], "com".data, by decide,
      ⟨by decide, by decide⟩, ⟨by decide, by decide⟩, by decide, ⟨by decide, by decide⟩⟩
  · decide!

/-- Counterexample to C8 as stated: `a@b.c1.com` has the shape of the claim, its
middle label `c1` being lowercase letters and digits, and is rejected. -/
theorem email_rejects_digit_label :
    EmailForm (fun c => isLowerLetter c || isDigit c) "a@b.c1.com".data ∧
    EmailValidator.Validate (.str "a@b.c1.com") =
      some (false, some "is not a valid email address") := by
  constructor
  · exact ⟨"a".data, "b".data, ["c1".data], "com".data, by decide,
      ⟨by decide, by decide⟩, ⟨by decide, by decide⟩, by decide, ⟨by decide, by decide⟩⟩
  · decide!

/-! ## From a tag to a checker -/

/-- The characters a decimal rendering is made of. -/
theorem digitChar_mem (d : Nat) (h : d < 10) : digitChar d ∈ decimalDigits := by
  interval_cases d <;> decide

theorem digitVal_digitChar (d : Nat) (h : d < 10) : digitVal (digitChar d) = d := by
  interval_cases d <;> decide

theorem digitsRev_mem (fuel n : Nat) : ∀ c ∈ digitsRev fuel n, c ∈ decimalDigits := by
  induction fuel generalizing n with
  | zero => simp [digitsRev]
  | succ f ih =>
    intro c hc
    rw [digitsRev] at hc
    split at hc
    · rw [List.mem_singleton] at hc
      rw [hc]; exact digitChar_mem n (by assumption)
    · rcases List.mem_cons.mp hc with rfl | hc
      · exact digitChar_mem _ (Nat.mod_lt _ (by decide))
      · exact ih _ c hc

theorem digitsRev_ne_nil (fuel n : Nat) : digitsRev (fuel + 1) n ≠ [] := by
  rw [digitsRev]
  split <;> simp

theorem digitsRev_value (fuel n : Nat) (h : n < fuel) :
    (digitsRev fuel n).foldr (fun c acc => 10 * acc + digitVal c) 0 = n := by
  induction fuel generalizing n with
  | zero => omega
  | succ f ih =>
    rw [digitsRev]
    split
    · rename_i h10
      simp [digitVal_digitChar n h10]
    · rename_i h10
      simp only [List.foldr_cons]
      rw [ih (n / 10) (by omega), digitVal_digitChar _ (Nat.mod_lt _ (by decide))]
      omega

theorem natDec_mem (n : Nat) : ∀ c ∈ natDec n, c ∈ decimalDigits := by
  intro c hc
  rw [natDec, List.mem_reverse] at hc
  exact digitsRev_mem _ _ c hc

theorem natDec_ne_nil (n : Nat) : natDec n ≠ [] := by
  rw [natDec]
  simpa using digitsRev_ne_nil n n

theorem parseDigits_natDec (n : Nat) : parseDigits 10 (natDec n) = n := by
  rw [parseDigits, natDec, List.foldl_reverse]
  exact digitsRev_value (n + 1) n (Nat.lt_succ_self n)

theorem isDigit_of_mem (c : Char) (h : c ∈ decimalDigits) : isDigit c = true := by
  revert c
  decide

theorem all_isDigit_natDec (n : Nat) : (natDec n).all isDigit = true := by
  rw [List.all_eq_true]
  intro c hc
  exact isDigit_of_mem c (natDec_mem n c hc)

/-- The characters of `Itoa`. -/
theorem Itoa_mem (a : Int) : ∀ c ∈ Itoa a, c ∈ '-' :: decimalDigits := by
  intro c hc
  rw [Itoa] at hc
  split at hc
  · rcases List.mem_cons.mp hc with rfl | hc
    · exact List.mem_cons_self _ _
    · exact List.mem_cons_of_mem _ (natDec_mem _ c hc)
  · exact List.mem_cons_of_mem _ (natDec_mem _ c hc)

theorem takeWhile_append_stop {p : Char → Bool} (ds rest : List Char)
    (hds : ∀ c ∈ ds, p c = true) (hrest : ∀ c, rest.head? = some c → p c = false) :
    (ds ++ rest).takeWhile p = ds ∧ (ds ++ rest).dropWhile p = rest := by
  induction ds with
  | nil =>
    cases rest with
    | nil => simp
    | cons c t =>
      have := hrest c rfl
      simp [List.takeWhile, List.dropWhile, this]
  | cons d ds ih =>
    have hd := hds d (List.mem_cons_self _ _)
    have ih' := ih fun c hc => hds c (List.mem_cons_of_mem _ hc)
    simp [List.takeWhile, List.dropWhile, hd, ih'.1, ih'.2]

theorem natDec_head (n : Nat) : ∃ d ds, natDec n = d :: ds ∧ d ∈ decimalDigits := by
  cases h : natDec n with
  | nil => exact absurd h (natDec_ne_nil n)
  | cons d ds => exact ⟨d, ds, rfl, natDec_mem n d (by rw [h]; exact List.mem_cons_self _ _)⟩

theorem digit_ne_sign (d : Char) (h : d ∈ decimalDigits) : d ≠ '-' ∧ d ≠ '+' := by
  revert d
  decide

theorem SkipSpace_plain (c : Char) (hc : c ∈ '-' :: decimalDigits) (t : List Char) :
    SkipSpace (c :: t) = some (c :: t) := by
  have h : c ≠ '\r' ∧ c ≠ '\n' ∧ isSpace c = false := by
    revert c
    decide
  rw [SkipSpace]
  simp [h.1, h.2.1, h.2.2]

theorem parseInt_natDec (n : Nat) (h : (n : Int) < 2 ^ 63) : parseInt (natDec n) = some (n : Int) := by
  obtain ⟨d, ds, hd, hmem⟩ := natDec_head n
  have hd1 := digit_ne_sign d hmem
  have hall := all_isDigit_natDec n
  have hval := parseDigits_natDec n
  rw [hd] at hall hval
  have h0 : -(2 : Int) ^ 63 ≤ (n : Int) := by
    have : (0 : Int) ≤ n := Int.ofNat_nonneg n
    omega
  simp only [parseInt, hd, List.head?_cons, Option.some.injEq, hd1.1, hd1.2, or_self, if_false,
    hall, hval, not_true_eq_false, reduceCtorEq, or_false, decide_False, h, h0, and_self,
    if_true]

theorem parseInt_neg_natDec (n : Nat) (h : -(2 : Int) ^ 63 ≤ -(n : Int)) :
    parseInt ('-' :: natDec n) = some (-(n : Int)) := by
  have hall := all_isDigit_natDec n
  have hval := parseDigits_natDec n
  have hne := natDec_ne_nil n
  have h0 : -(n : Int) < (2 : Int) ^ 63 := by
    have : (0 : Int) ≤ n := Int.ofNat_nonneg n
    omega
  simp only [parseInt, List.head?_cons, true_or, if_true, List.tail_cons, hne, hall,
    not_true_eq_false, or_self, if_false, hval, h, h0, and_self]

theorem scanInt_Itoa (a : Int) (ha : -(2 : Int) ^ 63 ≤ a ∧ a < (2 : Int) ^ 63) (rest : List Char)
    (hrest : ∀ c, rest.head? = some c → isDigit c = false) :
    scanInt (Itoa a ++ rest) = some (a, rest) := by
  have htw := takeWhile_append_stop (natDec a.natAbs) rest
    (fun c hc => isDigit_of_mem c (natDec_mem _ c hc)) hrest
  by_cases hneg : a < 0
  · have hItoa : Itoa a = '-' :: natDec a.natAbs := by rw [Itoa, if_pos hneg]
    have hval : -(a.natAbs : Int) = a := by omega
    have hp := parseInt_neg_natDec a.natAbs (by omega)
    rw [hItoa, List.cons_append, scanInt, SkipSpace_plain _ (List.mem_cons_self _ _)]
    simp only [or_true, if_true, htw.1, htw.2, natDec_ne_nil, if_false, List.singleton_append,
      hp, Option.map_some', hval]
  · have hItoa : Itoa a = natDec a.natAbs := by rw [Itoa, if_neg hneg]
    have hval : (a.natAbs : Int) = a := by omega
    have hp := parseInt_natDec a.natAbs (by omega)
    obtain ⟨d, ds, hd, hmem⟩ := natDec_head a.natAbs
    have hd1 := digit_ne_sign d hmem
    rw [hItoa]
    rw [hd] at htw hp ⊢
    rw [List.cons_append, scanInt, SkipSpace_plain _ (List.mem_cons_of_mem _ hmem)]
    simp only [hd1.1, hd1.2, or_self, if_false]
    rw [List.cons_append] at htw
    simp only [htw.1, htw.2, reduceCtorEq, if_false, List.nil_append, hp, Option.map_some', hval]

theorem Split_no_sep (u : List Char) (sep : Char) (h : sep ∉ u) : Split u sep = [u] := by
  induction u with
  | nil => rfl
  | cons c t ih =>
    have hc : c ≠ sep := fun e => h (e ▸ List.mem_cons_self _ _)
    have ht : sep ∉ t := fun e => h (List.mem_cons_of_mem _ e)
    rw [Split, if_neg hc, ih ht]

theorem Split_append (u rest : List Char) (sep : Char) (h : sep ∉ u) :
    Split (u ++ sep :: rest) sep = u :: Split rest sep := by
  induction u with
  | nil => simp [Split]
  | cons c t ih =>
    have hc : c ≠ sep := fun e => h (e ▸ List.mem_cons_self _ _)
    have ht : sep ∉ t := fun e => h (List.mem_cons_of_mem _ e)
    rw [List.cons_append, Split, if_neg hc, ih ht]

theorem Contains_min_false (s : List Char) (h : 'm' ∉ s) : Contains s "min".data = false := by
  induction s with
  | nil => rfl
  | cons c t ih =>
    have hc : c ≠ 'm' := fun e => h (e ▸ List.mem_cons_self _ _)
    have ht : 'm' ∉ t := fun e => h (List.mem_cons_of_mem _ e)
    rw [Contains, ih ht, Bool.or_false]
    simp [List.isPrefixOf, Ne.symm hc]

theorem Itoa_no_comma (a : Int) : ',' ∉ Itoa a := by
  intro h
  exact absurd (Itoa_mem a _ h) (by decide)

theorem Itoa_no_m (a : Int) : 'm' ∉ Itoa a := by
  intro h
  exact absurd (Itoa_mem a _ h) (by decide)

theorem not_digit_head_comma (rest : List Char) :
    ∀ c, (',' :: rest).head? = some c → isDigit c = false := by
  intro c hc
  simp only [List.head?_cons, Option.some.injEq] at hc
  rw [← hc]; decide

theorem not_digit_head_nil : ∀ c, ([] : List Char).head? = some c → isDigit c = false := by
  intro c hc
  simp at hc

theorem getValidatorFromTag_string (tag : String) (arg1 : List (List Char))
    (h : Split tag.data ',' = "string".data :: arg1) :
    getValidatorFromTag tag =
      if arg1.length = 2 then
        .string { Min := intArg (Sscanf (Join arg1 ',') "min=%d,max=%d") 0,
                  Max := intArg (Sscanf (Join arg1 ',') "min=%d,max=%d") 1 }
      else if arg1.length = 1 then
        if Contains (arg1.headD []) "min".data then
          .string { Min := intArg (Sscanf (Join arg1 ',') "min=%d") 0, Max := 0 }
        else if Contains (arg1.headD []) "max".data then
          .string { Min := 0, Max := intArg (Sscanf (Join arg1 ',') "max=%d") 0 }
        else .string { Min := 0, Max := 0 }
      else .string { Min := 0, Max := 0 } := by
  have h1 : (some "string".data : Option (List Char)) ≠ some "number".data := by decide
  simp only [getValidatorFromTag, h, List.head?_cons, List.tail_cons, h1, if_false, if_true]

theorem scanLiteral_append (text rest : List Char) :
    scanLiteral text (text ++ rest) = some rest := by
  induction text with
  | nil => cases rest <;> rfl
  | cons c t ih => rw [List.cons_append, scanLiteral, if_pos rfl, ih]

theorem scanOne_d (inp : List Char) :
    scanOne 'd' inp = (scanInt inp).map fun r => (.int r.1, r.2) := by
  rw [scanOne, if_pos rfl]

theorem Sscanf_min_max_int (a b : Int) (ha : -(2 : Int) ^ 63 ≤ a ∧ a < (2 : Int) ^ 63)
    (hb : -(2 : Int) ^ 63 ≤ b ∧ b < (2 : Int) ^ 63) :
    Sscanf ("min=".data ++ Itoa a ++ ',' :: ("max=".data ++ Itoa b)) "min=%d,max=%d" =
      [.int a, .int b] := by
  have hd : directives "min=%d,max=%d".data =
      [.lit "min=".data, .verb 'd', .lit ",max=".data, .verb 'd'] := by decide
  have h1 := scanInt_Itoa a ha (',' :: ("max=".data ++ Itoa b)) (not_digit_head_comma _)
  have h2 := scanInt_Itoa b hb [] not_digit_head_nil
  rw [List.append_nil] at h2
  have e1 := scanLiteral_append "min=".data (Itoa a ++ ',' :: ("max=".data ++ Itoa b))
  have e2 := scanLiteral_append ",max=".data (Itoa b)
  rw [← List.append_assoc] at e1
  rw [Sscanf, hd]
  simp only [doScanf, e1, scanOne_d, h1, Option.map_some']
  have e3 : ',' :: ("max=".data ++ Itoa b) = ",max=".data ++ Itoa b := rfl
  rw [e3, e2]
  simp only [h2, Option.map_some']

theorem Sscanf_one_int (key : List Char) (fmt : String) (a : Int)
    (ha : -(2 : Int) ^ 63 ≤ a ∧ a < (2 : Int) ^ 63)
    (hd : directives fmt.data = [.lit key, .verb 'd']) :
    Sscanf (key ++ Itoa a) fmt = [.int a] := by
  have h2 := scanInt_Itoa a ha [] not_digit_head_nil
  rw [List.append_nil] at h2
  rw [Sscanf, hd]
  simp only [doScanf, scanLiteral_append, scanOne_d, h2, Option.map_some']

theorem Join_two (x y : List Char) (sep : Char) : Join [x, y] sep = x ++ sep :: y := by
  simp [Join]

theorem Join_one (x : List Char) (sep : Char) : Join [x] sep = x := by
  simp [Join]

theorem tag_string_bounds (a b : Int) (ha : -(2 : Int) ^ 63 ≤ a ∧ a < (2 : Int) ^ 63)
    (hb : -(2 : Int) ^ 63 ≤ b ∧ b < (2 : Int) ^ 63) :
    getValidatorFromTag (String.mk ("string,min=".data ++ Itoa a ++ ",max=".data ++ Itoa b)) =
      .string { Min := a, Max := b } ∧
    getValidatorFromTag (String.mk ("string,min=".data ++ Itoa a)) =
      .string { Min := a, Max := 0 } ∧
    getValidatorFromTag (String.mk ("string,max=".data ++ Itoa b)) =
      .string { Min := 0, Max := b } := by
  have hs : ',' ∉ "string".data := by decide
  have hmin : ',' ∉ "min=".data ++ Itoa a := by
    simp only [List.mem_append, not_or]
    exact ⟨by decide, Itoa_no_comma a⟩
  have hmax : ',' ∉ "max=".data ++ Itoa b := by
    simp only [List.mem_append, not_or]
    exact ⟨by decide, Itoa_no_comma b⟩
  refine ⟨?_, ?_, ?_⟩
  · have e : "string,min=".data ++ Itoa a ++ ",max=".data ++ Itoa b =
        "string".data ++ ',' :: (("min=".data ++ Itoa a) ++ ',' :: ("max=".data ++ Itoa b)) := by
      simp [List.append_assoc]
    rw [getValidatorFromTag_string _ ["min=".data ++ Itoa a, "max=".data ++ Itoa b]
      (by rw [e, Split_append _ _ _ hs, Split_append _ _ _ hmin, Split_no_sep _ _ hmax])]
    simp only [List.length_cons, List.length_nil, if_true, Join_two, Sscanf_min_max_int a b ha hb,
      intArg, List.get?]
  · have e : "string,min=".data ++ Itoa a = "string".data ++ ',' :: ("min=".data ++ Itoa a) := by
      simp [List.append_assoc]
    rw [getValidatorFromTag_string _ ["min=".data ++ Itoa a]
      (by rw [e, Split_append _ _ _ hs, Split_no_sep _ _ hmin])]
    have hc : Contains ("min=".data ++ Itoa a) "min".data = true := by
      simp [Contains, List.isPrefixOf]
    have hsc := Sscanf_one_int "min=".data "min=%d" a ha (by decide)
    simp only [List.length_cons, List.length_nil, if_true, Join_one, List.headD_cons, hc, hsc,
      intArg, List.get?]
    simp
  · have e : "string,max=".data ++ Itoa b = "string".data ++ ',' :: ("max=".data ++ Itoa b) := by
      simp [List.append_assoc]
    rw [getValidatorFromTag_string _ ["max=".data ++ Itoa b]
      (by rw [e, Split_append _ _ _ hs, Split_no_sep _ _ hmax])]
    have hc : Contains ("max=".data ++ Itoa b) "min".data = false := by
      have := Contains_min_false (Itoa b) (Itoa_no_m b)
      simp [Contains, List.isPrefixOf, this]
    have hc2 : Contains ("max=".data ++ Itoa b) "max".data = true := by
      simp [Contains, List.isPrefixOf]
    have hsc := Sscanf_one_int "max=".data "max=%d" b hb (by decide)
    simp only [List.length_cons, List.length_nil, if_true, Join_one, List.headD_cons, hc, hc2, hsc,
      intArg, List.get?]
    simp

theorem accept_cons_mem (ok buf : List Char) (c : Char) (t : List Char) (h : c ∈ ok) :
    accept ok (buf, c :: t) = (true, (buf ++ [c], t)) := by
  simp [accept, h]

theorem accept_cons_not_mem (ok buf : List Char) (c : Char) (t : List Char) (h : c ∉ ok) :
    accept ok (buf, c :: t) = (false, (buf, c :: t)) := by
  simp [accept, h]

theorem accept_head_not_mem (ok buf l : List Char) (h : ∀ c, l.head? = some c → c ∉ ok) :
    accept ok (buf, l) = (false, (buf, l)) := by
  cases l with
  | nil => rfl
  | cons c t => exact accept_cons_not_mem ok buf c t (h c rfl)

theorem acceptAll_digits (buf ds rest : List Char) (hds : ∀ c ∈ ds, c ∈ decimalDigits)
    (hrest : ∀ c, rest.head? = some c → c = ',') :
    acceptAll (decimalDigits ++ ['_']) (buf, ds ++ rest) = (buf ++ ds, rest) := by
  have h := takeWhile_append_stop (p := fun c => decide (c ∈ decimalDigits ++ ['_'])) ds rest
    (fun c hc => by simp [hds c hc])
    (fun c hc => by rw [hrest c hc]; decide)
  simp only [acceptAll, h.1, h.2]

theorem digit_not_special (d : Char) (h : d ∈ decimalDigits) :
    d ∉ "nN".data ∧ d ∉ "+-".data ∧ d ∉ "iI".data ∧ d ∉ "xX".data := by
  revert d
  decide

theorem head_digits_rest (ds rest : List Char) (hds : ∀ c ∈ ds, c ∈ decimalDigits)
    (hrest : ∀ c, rest.head? = some c → c = ',') :
    ∀ c, (ds ++ rest).head? = some c → c ∈ ',' :: decimalDigits := by
  intro c hc
  cases ds with
  | nil => rw [List.nil_append] at hc; rw [hrest c hc]; exact List.mem_cons_self _ _
  | cons d ds =>
    simp only [List.cons_append, List.head?_cons, Option.some.injEq] at hc
    rw [← hc]; exact List.mem_cons_of_mem _ (hds d (List.mem_cons_self _ _))

theorem comma_digit_not_mark (c : Char) (h : c ∈ ',' :: decimalDigits) :
    c ∉ "xX".data ∧ c ∉ ".".data ∧ c ∉ "eEpP".data := by
  revert c
  decide

theorem floatToken_digits (sg : List Char) (hsg : sg = [] ∨ sg = ['-']) (d : Char)
    (ds rest : List Char) (hd : d ∈ decimalDigits) (hds : ∀ c ∈ ds, c ∈ decimalDigits)
    (hrest : ∀ c, rest.head? = some c → c = ',') :
    floatToken (sg ++ d :: (ds ++ rest)) = (sg ++ d :: ds, rest) := by
  have hd' := digit_not_special d hd
  have hrest' : ∀ c, rest.head? = some c → c ∈ ',' :: decimalDigits := by
    intro c hc; rw [hrest c hc]; exact List.mem_cons_self _ _
  have hdot : ∀ buf, accept ".".data (buf, rest) = (false, (buf, rest)) := fun buf =>
    accept_head_not_mem _ _ _ fun c hc => (comma_digit_not_mark c (hrest' c hc)).2.1
  have hexp : ∀ buf, accept "eEpP".data (buf, rest) = (false, (buf, rest)) := fun buf =>
    accept_head_not_mem _ _ _ fun c hc => (comma_digit_not_mark c (hrest' c hc)).2.2
  have hxx : ∀ buf, accept "xX".data (buf, ds ++ rest) = (false, (buf, ds ++ rest)) := fun buf =>
    accept_head_not_mem _ _ _ fun c hc =>
      (comma_digit_not_mark c (head_digits_rest ds rest hds hrest c hc)).1
  have hall : ∀ buf, acceptAll (decimalDigits ++ ['_']) (buf, d :: (ds ++ rest)) =
      (buf ++ d :: ds, rest) := fun buf => by
    have := acceptAll_digits buf (d :: ds) rest (by
      intro c hc
      rcases List.mem_cons.mp hc with rfl | hc
      · exact hd
      · exact hds c hc) hrest
    simpa using this
  have hall2 := fun buf => acceptAll_digits buf ds rest hds hrest
  rcases hsg with rfl | rfl
  · by_cases h0 : d = '0'
    · subst h0
      simp only [floatToken, List.nil_append, accept_cons_not_mem _ _ _ _ hd'.1,
        accept_cons_not_mem _ _ _ _ hd'.2.1, accept_cons_not_mem _ _ _ _ hd'.2.2.1,
        accept_cons_mem "0".data [] '0' _ (by decide), hxx, hall2, hdot, hexp,
        Bool.false_eq_true, if_false, if_true, List.cons_append]
    · have h0' : d ∉ "0".data := by simpa using h0
      simp only [floatToken, List.nil_append, accept_cons_not_mem _ _ _ _ hd'.1,
        accept_cons_not_mem _ _ _ _ hd'.2.1, accept_cons_not_mem _ _ _ _ hd'.2.2.1,
        accept_cons_not_mem _ _ _ _ h0', hall, hdot, hexp,
        Bool.false_eq_true, if_false, if_true]
  · have hm : '-' ∉ "nN".data := by decide
    by_cases h0 : d = '0'
    · subst h0
      simp only [floatToken, List.cons_append, List.nil_append, accept_cons_not_mem _ _ _ _ hm,
        accept_cons_mem "+-".data [] '-' _ (by decide),
        accept_cons_not_mem _ _ _ _ hd'.2.2.1,
        accept_cons_mem "0".data _ '0' _ (by decide), hxx, hall2, hdot, hexp,
        Bool.false_eq_true, if_false, if_true]
    · have h0' : d ∉ "0".data := by simpa using h0
      simp only [floatToken, List.cons_append, List.nil_append, accept_cons_not_mem _ _ _ _ hm,
        accept_cons_mem "+-".data [] '-' _ (by decide),
        accept_cons_not_mem _ _ _ _ hd'.2.2.1,
        accept_cons_not_mem _ _ _ _ h0', hall, hdot, hexp,
        Bool.false_eq_true, if_false, if_true]

theorem F64.bitLengthAux_zero (fuel : Nat) : F64.bitLengthAux fuel 0 = 0 := by
  cases fuel <;> simp [F64.bitLengthAux]

theorem F64.pow_bitLengthAux_le (fuel n : Nat) (hf : n ≤ fuel) (hn : n ≠ 0) :
    2 ^ (F64.bitLengthAux fuel n - 1) ≤ n := by
  induction fuel generalizing n with
  | zero => omega
  | succ f ih =>
    rw [F64.bitLengthAux, if_neg hn, Nat.add_sub_cancel]
    by_cases h2 : n / 2 = 0
    · rw [h2, F64.bitLengthAux_zero]
      simp only [pow_zero]
      omega
    · have h := ih (n / 2) (by omega) h2
      have hpos : 0 < F64.bitLengthAux f (n / 2) := by
        cases f with
        | zero => omega
        | succ g => rw [F64.bitLengthAux, if_neg h2]; omega
      have e : F64.bitLengthAux f (n / 2) = (F64.bitLengthAux f (n / 2) - 1) + 1 := by omega
      rw [e, pow_succ]
      omega

theorem F64.pow_bitLength_le (n : Nat) (hn : n ≠ 0) : 2 ^ (F64.bitLength n - 1) ≤ n :=
  F64.pow_bitLengthAux_le n n (Nat.le_refl n) hn

theorem F64.roundMag_le (num : Nat) : F64.roundMag num 1 ≤ 2 * num := by
  unfold F64.roundMag
  simp only [Nat.div_one, Nat.one_mul]
  by_cases hsh : F64.bitLength num - 53 = 0
  · rw [hsh]
    simp only [pow_zero, Nat.div_one, Nat.mod_one, Nat.mul_zero, Nat.mul_one]
    rw [if_neg (by omega)]
    omega
  · have hnum : num ≠ 0 := by
      intro h0
      rw [h0] at hsh
      exact hsh (by simp [F64.bitLength, F64.bitLengthAux])
    have h1 : 2 ^ (F64.bitLength num - 53) ≤ 2 ^ (F64.bitLength num - 1) :=
      Nat.pow_le_pow_right (by decide) (by omega)
    have h2 := F64.pow_bitLength_le num hnum
    have h3 : num / 2 ^ (F64.bitLength num - 53) * 2 ^ (F64.bitLength num - 53) ≤ num :=
      Nat.div_mul_le_self _ _
    generalize 2 ^ (F64.bitLength num - 53) = u at *
    generalize num / u = n at *
    split
    · rw [Nat.add_mul, Nat.one_mul]; omega
    · omega

set_option exponentiation.threshold 4000 in
theorem F64.ofRat_small (neg : Bool) (n : Nat) (h : n < 2 ^ 64) :
    ∃ k : Int, F64.ofRat neg n 1 = .fin k := by
  unfold F64.ofRat
  simp only []
  have h1 := F64.roundMag_le (n * F64.one)
  have h2 : 2 * (n * F64.one) < F64.huge := by
    have e : F64.huge = 2 * (2 ^ 1023 * F64.one) := by
      simp only [F64.huge, F64.one]
      rw [← pow_add, ← pow_succ']
    rw [e]
    have h3 : (2 : Nat) ^ 64 ≤ 2 ^ 1023 := Nat.pow_le_pow_right (by decide) (by decide)
    have hone : 0 < F64.one := by simp [F64.one]
    have h4 : n * F64.one < 2 ^ 1023 * F64.one :=
      Nat.mul_lt_mul_of_lt_of_le (Nat.lt_of_lt_of_le h h3) (Nat.le_refl _) hone
    exact Nat.mul_lt_mul_of_le_of_lt (Nat.le_refl 2) h4 (by decide)
  rw [if_neg (Nat.not_le_of_lt (Nat.lt_of_le_of_lt h1 h2))]
  exact ⟨_, rfl⟩

theorem finiteOnly_ofInt (a : Int) (ha : -(2 : Int) ^ 63 ≤ a ∧ a < (2 : Int) ^ 63) :
    finiteOnly (F64.ofRat (decide (a < 0)) a.natAbs 1) = some (F64.ofInt a) := by
  have hn : a.natAbs < 2 ^ 64 := by omega
  obtain ⟨k, hk⟩ := F64.ofRat_small (decide (a < 0)) a.natAbs hn
  rw [F64.ofInt, hk]
  rfl

theorem plain_char_facts (c : Char) (h : c ∈ '-' :: decimalDigits) :
    c.toLower ≠ 'n' ∧ c.toLower ≠ 'i' ∧ c ≠ 'p' ∧ c ≠ 'x' ∧ c ≠ 'X' := by
  revert c
  decide

theorem digit_facts (c : Char) (h : c ∈ decimalDigits) :
    c ≠ '_' ∧ c ≠ '.' ∧ isDigit c = true ∧ c.toLower ≠ 'i' ∧ c ∉ "bBoOxX".data ∧ c ≠ 'x' ∧
      c ≠ 'X' := by
  revert c
  decide

theorem special_plain (tok : List Char) (sg : List Char) (hsg : sg = [] ∨ sg = ['-'])
    (d : Char) (ds : List Char) (hd : d ∈ decimalDigits) (htok : tok = sg ++ d :: ds) :
    special tok = none := by
  have hdf := digit_facts d hd
  have hs := digit_ne_sign d hd
  rcases hsg with rfl | rfl
  · subst htok
    have h1 := (plain_char_facts d (List.mem_cons_of_mem _ hd)).1
    simp only [special, List.nil_append, List.map_cons, String.data, List.cons.injEq, h1,
      false_and, if_false, List.head?_cons, Option.some.injEq, hs.1, hs.2, or_self, hdf.2.2.2.1]
  · subst htok
    simp only [special, List.cons_append, List.nil_append, List.map_cons, String.data,
      List.cons.injEq, List.head?_cons, true_or, if_true, List.tail_cons, hdf.2.2.2.1,
      false_and, or_self, if_false]
    simp

theorem readMantissa_digits (ds : List Char) (hds : ∀ c ∈ ds, c ∈ decimalDigits) (m : Nat)
    (sd : Bool) :
    readMantissa false ds m 0 sd false =
      (ds.foldl (fun acc c => 10 * acc + digitVal c) m, 0, (sd || !ds.isEmpty), []) := by
  induction ds generalizing m sd with
  | nil => simp [readMantissa]
  | cons d ds ih =>
    have hdf := digit_facts d (hds d (List.mem_cons_self _ _))
    rw [readMantissa, if_neg hdf.1, if_neg hdf.2.1]
    simp only [hdf.2.2.1, Bool.true_or, if_true, Bool.false_eq_true, if_false]
    rw [ih (fun c hc => hds c (List.mem_cons_of_mem _ hc))]
    simp

theorem underscoreLoop_digits (ds : List Char) (hds : ∀ c ∈ ds, c ∈ decimalDigits) (saw : Char)
    (hsaw : saw ≠ '_') : underscoreLoop false ds saw = true := by
  induction ds generalizing saw with
  | nil => simp [underscoreLoop, hsaw]
  | cons d ds ih =>
    have hdf := digit_facts d (hds d (List.mem_cons_self _ _))
    rw [underscoreLoop]
    simp only [hdf.2.2.1, Bool.true_or, if_true]
    exact ih (fun c hc => hds c (List.mem_cons_of_mem _ hc)) '0' (by decide)

theorem hexPrefix_digits (ds : List Char) (hds : ∀ c ∈ ds, c ∈ decimalDigits) :
    hexPrefix ds = false := by
  unfold hexPrefix
  split
  · rename_i c _ _
    have hdf := digit_facts c (hds c (by simp))
    simp [hdf.2.2.2.2.2.1, hdf.2.2.2.2.2.2]
  · rfl

theorem underscoreOK_digits (sg : List Char) (hsg : sg = [] ∨ sg = ['-'])
    (ds : List Char) (hds : ∀ c ∈ ds, c ∈ decimalDigits) (hne : ds ≠ []) :
    underscoreOK (sg ++ ds) = true := by
  have hs1 : (if (sg ++ ds).head? = some '-' ∨ (sg ++ ds).head? = some '+' then (sg ++ ds).tail
      else sg ++ ds) = ds := by
    rcases hsg with rfl | rfl
    · cases ds with
      | nil => exact absurd rfl hne
      | cons d ds =>
        have hs := digit_ne_sign d (hds d (List.mem_cons_self _ _))
        simp [hs.1, hs.2]
    · simp
  unfold underscoreOK
  simp only [hs1]
  split
  · rename_i c t
    have hc := digit_facts c (hds c (by simp))
    rw [if_neg hc.2.2.2.2.1]
    exact underscoreLoop_digits _ hds _ (by decide)
  · exact underscoreLoop_digits _ hds _ (by decide)

theorem readFloat_plain (neg : Bool) (ds : List Char) (hds : ∀ c ∈ ds, c ∈ decimalDigits)
    (hne : ds ≠ []) :
    readFloat ((if neg then ['-'] else []) ++ ds) =
      finiteOnly (F64.ofRat neg (parseDigits 10 ds) 1) := by
  have hsg : (if neg then ['-'] else []) = [] ∨ (if neg then ['-'] else []) = ['-'] := by
    cases neg <;> simp
  have hu := underscoreOK_digits _ hsg ds hds hne
  have hhead : decide (((if neg then ['-'] else []) ++ ds).head? = some '-') = neg := by
    cases neg
    · cases ds with
      | nil => exact absurd rfl hne
      | cons d ds =>
        have hs := digit_ne_sign d (hds d (List.mem_cons_self _ _))
        simp [hs.1]
    · simp
  have hs1 : (if ((if neg then ['-'] else []) ++ ds).head? = some '-' ∨
      ((if neg then ['-'] else []) ++ ds).head? = some '+'
      then ((if neg then ['-'] else []) ++ ds).tail else (if neg then ['-'] else []) ++ ds) = ds := by
    cases neg
    · cases ds with
      | nil => exact absurd rfl hne
      | cons d ds =>
        have hs := digit_ne_sign d (hds d (List.mem_cons_self _ _))
        simp [hs.1, hs.2]
    · simp
  have hempty : ds.isEmpty = false := by
    cases ds with
    | nil => exact absurd rfl hne
    | cons d ds => rfl
  unfold readFloat
  simp only [hhead, hs1, hexPrefix_digits ds hds, Bool.false_eq_true, if_false,
    readMantissa_digits ds hds, hu, hempty, Bool.not_false, Bool.false_or, Bool.not_true,
    or_self, scalePow, Int.neg_zero, Nat.cast_zero, le_refl, if_true, Int.toNat_zero, pow_zero,
    Nat.mul_one, parseDigits]

theorem parseFloat_Itoa (a : Int) (ha : -(2 : Int) ^ 63 ≤ a ∧ a < (2 : Int) ^ 63) :
    parseFloat (Itoa a) = some (F64.ofInt a) := by
  obtain ⟨d, ds, hd, hmem⟩ := natDec_head a.natAbs
  have hItoa : Itoa a = (if decide (a < 0) then ['-'] else []) ++ natDec a.natAbs := by
    rw [Itoa]
    by_cases h : a < 0 <;> simp [h]
  have hsg : (if decide (a < 0) then ['-'] else []) = [] ∨
      (if decide (a < 0) then ['-'] else []) = ['-'] := by
    by_cases h : a < 0 <;> simp [h]
  have hsp := special_plain (Itoa a) _ hsg d ds hmem (by rw [hItoa, hd])
  rw [parseFloat, hsp]
  simp only []
  rw [hItoa, readFloat_plain _ _ (natDec_mem _) (natDec_ne_nil _), parseDigits_natDec]
  exact finiteOnly_ofInt a ha

theorem convertFloat_Itoa (a : Int) (ha : -(2 : Int) ^ 63 ≤ a ∧ a < (2 : Int) ^ 63) :
    convertFloat (Itoa a) = some (F64.ofInt a) := by
  have hp : 'p' ∉ Itoa a := fun h => absurd (Itoa_mem a _ h) (by decide)
  rw [convertFloat, if_neg (fun h => hp h.1)]
  exact parseFloat_Itoa a ha

theorem scanFloat_Itoa (a : Int) (ha : -(2 : Int) ^ 63 ≤ a ∧ a < (2 : Int) ^ 63)
    (rest : List Char) (hrest : ∀ c, rest.head? = some c → c = ',') :
    scanFloat (Itoa a ++ rest) = some (F64.ofInt a, rest) := by
  obtain ⟨d, ds, hd, hmem⟩ := natDec_head a.natAbs
  have hds : ∀ c ∈ ds, c ∈ decimalDigits := fun c hc =>
    natDec_mem a.natAbs c (by rw [hd]; exact List.mem_cons_of_mem _ hc)
  have hItoa : Itoa a = (if decide (a < 0) then ['-'] else []) ++ d :: ds := by
    rw [Itoa, hd]
    by_cases h : a < 0 <;> simp [h]
  have hsg : (if decide (a < 0) then ['-'] else []) = [] ∨
      (if decide (a < 0) then ['-'] else []) = ['-'] := by
    by_cases h : a < 0 <;> simp [h]
  have hft := floatToken_digits _ hsg d ds rest hmem hds hrest
  have hcv := convertFloat_Itoa a ha
  have e : Itoa a ++ rest = (if decide (a < 0) then ['-'] else []) ++ d :: (ds ++ rest) := by
    rw [hItoa]; simp
  have hsk : SkipSpace (Itoa a ++ rest) = some (Itoa a ++ rest) := by
    rw [e]
    rcases hsg with h | h <;> rw [h]
    · exact SkipSpace_plain d (List.mem_cons_of_mem _ hmem) _
    · exact SkipSpace_plain '-' (List.mem_cons_self _ _) _
  have hne : ∃ c t, Itoa a ++ rest = c :: t := by
    rw [e]
    rcases hsg with h | h <;> rw [h]
    · exact ⟨d, _, rfl⟩
    · exact ⟨'-', _, rfl⟩
  obtain ⟨c, t, hct⟩ := hne
  rw [scanFloat, hsk, hct]
  simp only []
  rw [← hct, e, hft, ← hItoa, hcv]
  rfl

theorem scanOne_g (inp : List Char) :
    scanOne 'g' inp = (scanFloat inp).map fun r => (.float r.1, r.2) := by
  rw [scanOne, if_neg (by decide), if_pos rfl]

theorem comma_head (rest : List Char) : ∀ c, (',' :: rest).head? = some c → c = ',' := by
  intro c hc
  simp only [List.head?_cons, Option.some.injEq] at hc
  exact hc.symm

theorem nil_head : ∀ c, ([] : List Char).head? = some c → c = ',' := by
  intro c hc
  simp at hc

theorem acceptAll_stop (buf ds rest : List Char) (hds : ∀ c ∈ ds, c ∈ decimalDigits)
    (hrest : ∀ c, rest.head? = some c → c ∉ decimalDigits ++ ['_']) :
    acceptAll (decimalDigits ++ ['_']) (buf, ds ++ rest) = (buf ++ ds, rest) := by
  have h := takeWhile_append_stop (p := fun c => decide (c ∈ decimalDigits ++ ['_'])) ds rest
    (fun c hc => by simp [hds c hc])
    (fun c hc => by simpa using hrest c hc)
  simp only [acceptAll, h.1, h.2]

theorem floatToken_fraction (sg : List Char) (hsg : sg = [] ∨ sg = ['-']) (d : Char)
    (ds fs rest : List Char) (hd : d ∈ decimalDigits) (hds : ∀ c ∈ ds, c ∈ decimalDigits)
    (hfs : ∀ c ∈ fs, c ∈ decimalDigits) (hrest : ∀ c, rest.head? = some c → c = ',') :
    floatToken (sg ++ d :: (ds ++ '.' :: (fs ++ rest))) = (sg ++ d :: (ds ++ '.' :: fs), rest) := by
  have hd' := digit_not_special d hd
  have hrest' : ∀ c, rest.head? = some c → c ∈ ',' :: decimalDigits := by
    intro c hc; rw [hrest c hc]; exact List.mem_cons_self _ _
  have hrest2 : ∀ c, rest.head? = some c → c ∉ decimalDigits ++ ['_'] := by
    intro c hc; rw [hrest c hc]; decide
  have hpt : ∀ c, ('.' :: (fs ++ rest)).head? = some c → c ∉ decimalDigits ++ ['_'] := by
    intro c hc
    simp only [List.head?_cons, Option.some.injEq] at hc
    rw [← hc]; decide
  have hdot : ∀ buf, accept ".".data (buf, '.' :: (fs ++ rest)) = (true, (buf ++ ['.'], fs ++ rest)) :=
    fun buf => accept_cons_mem _ _ _ _ (by decide)
  have hexp : ∀ buf, accept "eEpP".data (buf, rest) = (false, (buf, rest)) := fun buf =>
    accept_head_not_mem _ _ _ fun c hc => (comma_digit_not_mark c (hrest' c hc)).2.2
  have hxx : ∀ buf, accept "xX".data (buf, ds ++ '.' :: (fs ++ rest)) =
      (false, (buf, ds ++ '.' :: (fs ++ rest))) := fun buf =>
    accept_head_not_mem _ _ _ fun c hc => by
      cases ds with
      | nil =>
        simp only [List.nil_append, List.head?_cons, Option.some.injEq] at hc
        rw [← hc]; decide
      | cons e es =>
        simp only [List.cons_append, List.head?_cons, Option.some.injEq] at hc
        rw [← hc]
        exact (digit_not_special e (hds e (List.mem_cons_self _ _))).2.2.2
  have hall : ∀ buf, acceptAll (decimalDigits ++ ['_']) (buf, d :: (ds ++ '.' :: (fs ++ rest))) =
      (buf ++ d :: ds, '.' :: (fs ++ rest)) := fun buf => by
    have := acceptAll_stop buf (d :: ds) ('.' :: (fs ++ rest)) (by
      intro c hc
      rcases List.mem_cons.mp hc with rfl | hc
      · exact hd
      · exact hds c hc) hpt
    simpa using this
  have hall2 := fun buf => acceptAll_stop buf ds ('.' :: (fs ++ rest)) hds hpt
  have hfr := fun buf => acceptAll_stop buf fs rest hfs hrest2
  rcases hsg with rfl | rfl
  · by_cases h0 : d = '0'
    · subst h0
      simp only [floatToken, List.nil_append, accept_cons_not_mem _ _ _ _ hd'.1,
        accept_cons_not_mem _ _ _ _ hd'.2.1, accept_cons_not_mem _ _ _ _ hd'.2.2.1,
        accept_cons_mem "0".data [] '0' _ (by decide), hxx, hall2, hdot, hfr, hexp,
        Bool.false_eq_true, if_false, if_true, List.cons_append, List.append_assoc]
    · have h0' : d ∉ "0".data := by simpa using h0
      simp only [floatToken, List.nil_append, accept_cons_not_mem _ _ _ _ hd'.1,
        accept_cons_not_mem _ _ _ _ hd'.2.1, accept_cons_not_mem _ _ _ _ hd'.2.2.1,
        accept_cons_not_mem _ _ _ _ h0', hall, hdot, hfr, hexp,
        Bool.false_eq_true, if_false, if_true, List.cons_append, List.append_assoc,
        List.nil_append]
  · have hm : '-' ∉ "nN".data := by decide
    by_cases h0 : d = '0'
    · subst h0
      simp only [floatToken, List.cons_append, List.nil_append, accept_cons_not_mem _ _ _ _ hm,
        accept_cons_mem "+-".data [] '-' _ (by decide),
        accept_cons_not_mem _ _ _ _ hd'.2.2.1,
        accept_cons_mem "0".data _ '0' _ (by decide), hxx, hall2, hdot, hfr, hexp,
        Bool.false_eq_true, if_false, if_true, List.append_assoc]
    · have h0' : d ∉ "0".data := by simpa using h0
      simp only [floatToken, List.cons_append, List.nil_append, accept_cons_not_mem _ _ _ _ hm,
        accept_cons_mem "+-".data [] '-' _ (by decide),
        accept_cons_not_mem _ _ _ _ hd'.2.2.1,
        accept_cons_not_mem _ _ _ _ h0', hall, hdot, hfr, hexp,
        Bool.false_eq_true, if_false, if_true, List.append_assoc]

theorem PlainNumeral.mem {t : List Char} (h : PlainNumeral t) :
    ∀ c ∈ t, c ∈ '-' :: '.' :: decimalDigits := by
  obtain ⟨sg, d, ds, fs, hsg, hd, hds, hfs, ht⟩ := h
  have hdig : ∀ c, c ∈ decimalDigits → c ∈ '-' :: '.' :: decimalDigits := fun c hc =>
    List.mem_cons_of_mem _ (List.mem_cons_of_mem _ hc)
  intro c hc
  have hsgc : c ∈ sg → c ∈ '-' :: '.' :: decimalDigits := by
    intro h
    rcases hsg with rfl | rfl
    · simp at h
    · simp only [List.mem_singleton] at h
      rw [h]; exact List.mem_cons_self _ _
  rcases ht with rfl | rfl
  · simp only [List.mem_append, List.mem_cons] at hc
    rcases hc with hc | rfl | hc
    · exact hsgc hc
    · exact hdig _ hd
    · exact hdig _ (hds c hc)
  · simp only [List.mem_append, List.mem_cons] at hc
    rcases hc with hc | rfl | hc | rfl | hc
    · exact hsgc hc
    · exact hdig _ hd
    · exact hdig _ (hds c hc)
    · exact List.mem_cons_of_mem _ (List.mem_cons_self _ _)
    · exact hdig _ (hfs c hc)

theorem scanFloat_numeral (t : List Char) (x : F64) (ht : PlainNumeral t)
    (hx : convertFloat t = some x) (rest : List Char)
    (hrest : ∀ c, rest.head? = some c → c = ',') :
    scanFloat (t ++ rest) = some (x, rest) := by
  obtain ⟨sg, d, ds, fs, hsg, hd, hds, hfs, hform⟩ := ht
  have hft : floatToken (t ++ rest) = (t, rest) := by
    rcases hform with rfl | rfl
    · have := floatToken_digits sg hsg d ds rest hd hds hrest
      simpa [List.append_assoc] using this
    · have := floatToken_fraction sg hsg d ds fs rest hd hds hfs hrest
      simpa [List.append_assoc] using this
  have hhead : ∃ c u, t ++ rest = c :: u ∧ c ∈ '-' :: decimalDigits := by
    rcases hform with rfl | rfl <;> rcases hsg with rfl | rfl
    · exact ⟨d, _, rfl, List.mem_cons_of_mem _ hd⟩
    · exact ⟨'-', _, rfl, List.mem_cons_self _ _⟩
    · exact ⟨d, _, rfl, List.mem_cons_of_mem _ hd⟩
    · exact ⟨'-', _, rfl, List.mem_cons_self _ _⟩
  obtain ⟨c, u, hcu, hc⟩ := hhead
  have hsk : SkipSpace (t ++ rest) = some (t ++ rest) := by
    rw [hcu]; exact SkipSpace_plain c hc u
  rw [scanFloat, hsk, hcu]
  simp only []
  rw [← hcu, hft, hx]
  rfl

theorem plainNumeral_Itoa (a : Int) : PlainNumeral (Itoa a) := by
  obtain ⟨d, ds, hd, hmem⟩ := natDec_head a.natAbs
  have hds : ∀ c ∈ ds, c ∈ decimalDigits := fun c hc =>
    natDec_mem a.natAbs c (by rw [hd]; exact List.mem_cons_of_mem _ hc)
  by_cases h : a < 0
  · exact ⟨['-'], d, ds, [], Or.inr rfl, hmem, hds, by simp, Or.inl (by rw [Itoa, if_pos h, hd]; rfl)⟩
  · exact ⟨[], d, ds, [], Or.inl rfl, hmem, hds, by simp, Or.inl (by rw [Itoa, if_neg h, hd]; rfl)⟩

theorem Sscanf_min_max_float (ta tb : List Char) (xa xb : F64) (hta : PlainNumeral ta)
    (htb : PlainNumeral tb) (hxa : convertFloat ta = some xa) (hxb : convertFloat tb = some xb) :
    Sscanf ("min=".data ++ ta ++ ',' :: ("max=".data ++ tb)) "min=%g,max=%g" =
      [.float xa, .float xb] := by
  have hd : directives "min=%g,max=%g".data =
      [.lit "min=".data, .verb 'g', .lit ",max=".data, .verb 'g'] := by decide
  have h1 := scanFloat_numeral ta xa hta hxa (',' :: ("max=".data ++ tb)) (comma_head _)
  have h2 := scanFloat_numeral tb xb htb hxb [] nil_head
  rw [List.append_nil] at h2
  have e1 := scanLiteral_append "min=".data (ta ++ ',' :: ("max=".data ++ tb))
  have e2 := scanLiteral_append ",max=".data tb
  rw [← List.append_assoc] at e1
  rw [Sscanf, hd]
  simp only [doScanf, e1, scanOne_g, h1, Option.map_some']
  have e3 : ',' :: ("max=".data ++ tb) = ",max=".data ++ tb := rfl
  rw [e3, e2]
  simp only [h2, Option.map_some']

theorem Sscanf_one_float (key : List Char) (fmt : String) (ta : List Char) (xa : F64)
    (hta : PlainNumeral ta) (hxa : convertFloat ta = some xa)
    (hd : directives fmt.data = [.lit key, .verb 'g']) :
    Sscanf (key ++ ta) fmt = [.float xa] := by
  have h2 := scanFloat_numeral ta xa hta hxa [] nil_head
  rw [List.append_nil] at h2
  rw [Sscanf, hd]
  simp only [doScanf, scanLiteral_append, scanOne_g, h2, Option.map_some']

theorem getValidatorFromTag_number (tag : String) (arg1 : List (List Char))
    (h : Split tag.data ',' = "number".data :: arg1) :
    getValidatorFromTag tag =
      if arg1.length = 2 then
        .number { Min := floatArg (Sscanf (Join arg1 ',') "min=%g,max=%g") 0,
                  Max := floatArg (Sscanf (Join arg1 ',') "min=%g,max=%g") 1 }
      else if arg1.length = 1 then
        if Contains (arg1.headD []) "min".data then
          .number { Min := floatArg (Sscanf (Join arg1 ',') "min=%g") 0, Max := .fin 0 }
        else if Contains (arg1.headD []) "max".data then
          .number { Min := .fin 0, Max := floatArg (Sscanf (Join arg1 ',') "max=%g") 0 }
        else .number { Min := .fin 0, Max := .fin 0 }
      else .number { Min := .fin 0, Max := .fin 0 } := by
  simp only [getValidatorFromTag, h, List.head?_cons, List.tail_cons, if_true]

theorem tag_number_bounds (ta tb : List Char) (xa xb : F64) (hta : PlainNumeral ta)
    (htb : PlainNumeral tb) (hxa : convertFloat ta = some xa) (hxb : convertFloat tb = some xb) :
    getValidatorFromTag (String.mk ("number,min=".data ++ ta ++ ",max=".data ++ tb)) =
      .number { Min := xa, Max := xb } ∧
    getValidatorFromTag (String.mk ("number,min=".data ++ ta)) =
      .number { Min := xa, Max := .fin 0 } ∧
    getValidatorFromTag (String.mk ("number,max=".data ++ tb)) =
      .number { Min := .fin 0, Max := xb } := by
  have hs : ',' ∉ "number".data := by decide
  have hca : ',' ∉ ta := fun h => absurd (hta.mem _ h) (by decide)
  have hcb : ',' ∉ tb := fun h => absurd (htb.mem _ h) (by decide)
  have hmb : 'm' ∉ tb := fun h => absurd (htb.mem _ h) (by decide)
  have hmin : ',' ∉ "min=".data ++ ta := by
    simp only [List.mem_append, not_or]
    exact ⟨by decide, hca⟩
  have hmax : ',' ∉ "max=".data ++ tb := by
    simp only [List.mem_append, not_or]
    exact ⟨by decide, hcb⟩
  refine ⟨?_, ?_, ?_⟩
  · have e : "number,min=".data ++ ta ++ ",max=".data ++ tb =
        "number".data ++ ',' :: (("min=".data ++ ta) ++ ',' :: ("max=".data ++ tb)) := by
      simp [List.append_assoc]
    rw [getValidatorFromTag_number _ ["min=".data ++ ta, "max=".data ++ tb]
      (by rw [e, Split_append _ _ _ hs, Split_append _ _ _ hmin, Split_no_sep _ _ hmax])]
    simp only [List.length_cons, List.length_nil, if_true, Join_two,
      Sscanf_min_max_float ta tb xa xb hta htb hxa hxb, floatArg, List.get?]
  · have e : "number,min=".data ++ ta = "number".data ++ ',' :: ("min=".data ++ ta) := by
      simp [List.append_assoc]
    rw [getValidatorFromTag_number _ ["min=".data ++ ta]
      (by rw [e, Split_append _ _ _ hs, Split_no_sep _ _ hmin])]
    have hc : Contains ("min=".data ++ ta) "min".data = true := by
      simp [Contains, List.isPrefixOf]
    have hsc := Sscanf_one_float "min=".data "min=%g" ta xa hta hxa (by decide)
    simp only [List.length_cons, List.length_nil, if_true, Join_one, List.headD_cons, hc, hsc,
      floatArg, List.get?]
    simp
  · have e : "number,max=".data ++ tb = "number".data ++ ',' :: ("max=".data ++ tb) := by
      simp [List.append_assoc]
    rw [getValidatorFromTag_number _ ["max=".data ++ tb]
      (by rw [e, Split_append _ _ _ hs, Split_no_sep _ _ hmax])]
    have hc : Contains ("max=".data ++ tb) "min".data = false := by
      have := Contains_min_false tb hmb
      simp [Contains, List.isPrefixOf, this]
    have hc2 : Contains ("max=".data ++ tb) "max".data = true := by
      simp [Contains, List.isPrefixOf]
    have hsc := Sscanf_one_float "max=".data "max=%g" tb xb htb hxb (by decide)
    simp only [List.length_cons, List.length_nil, if_true, Join_one, List.headD_cons, hc, hc2, hsc,
      floatArg, List.get?]
    simp

/-- C9: for integers `a` and `b` (of the type `int`), written in decimal, the tag
`string,min=a,max=b` yields `StringValidator{Min: a, Max: b}`, `string,min=a` yields
`StringValidator{Min: a, Max: 0}` and `string,max=b` yields
`StringValidator{Min: 0, Max: b}`. Likewise for decimal numerals `ta` and `tb`
(digits, with or without a sign and a fraction) that `strconv` reads as the float64
values `xa` and `xb`, the tags of kind `number` yield `NumberValidator{Min: xa, Max:
xb}`, `{Min: xa, Max: 0}` and `{Min: 0, Max: xb}`; the numeral of an integer `a` is
read as `float64(a)`. -/
theorem tag_bounds (a b : Int) (ha : -(2 : Int) ^ 63 ≤ a ∧ a < (2 : Int) ^ 63)
    (hb : -(2 : Int) ^ 63 ≤ b ∧ b < (2 : Int) ^ 63)
    (ta tb : List Char) (xa xb : F64) (hta : PlainNumeral ta) (htb : PlainNumeral tb)
    (hxa : convertFloat ta = some xa) (hxb : convertFloat tb = some xb) :
    (getValidatorFromTag (String.mk ("string,min=".data ++ Itoa a ++ ",max=".data ++ Itoa b)) =
        .string { Min := a, Max := b } ∧
      getValidatorFromTag (String.mk ("string,min=".data ++ Itoa a)) =
        .string { Min := a, Max := 0 } ∧
      getValidatorFromTag (String.mk ("string,max=".data ++ Itoa b)) =
        .string { Min := 0, Max := b }) ∧
    (getValidatorFromTag (String.mk ("number,min=".data ++ ta ++ ",max=".data ++ tb)) =
        .number { Min := xa, Max := xb } ∧
      getValidatorFromTag (String.mk ("number,min=".data ++ ta)) =
        .number { Min := xa, Max := .fin 0 } ∧
      getValidatorFromTag (String.mk ("number,max=".data ++ tb)) =
        .number { Min := .fin 0, Max := xb }) ∧
    (PlainNumeral (Itoa a) ∧ convertFloat (Itoa a) = some (F64.ofInt a)) :=
  ⟨tag_string_bounds a b ha hb, tag_number_bounds ta tb xa xb hta htb hxa hxb,
    plainNumeral_Itoa a, convertFloat_Itoa a ha⟩

/-- Witness of C9: tags with the integer bounds 1, 5 and -3, and with the bounds
-2.25 and 0.5. -/
theorem tag_bounds_witness :
    getValidatorFromTag "string,min=1,max=5" = .string { Min := 1, Max := 5 } ∧
    getValidatorFromTag "string,min=-3" = .string { Min := -3, Max := 0 } ∧
    getValidatorFromTag "number,min=-3,max=5" =
      .number { Min := F64.ofInt (-3), Max := F64.ofInt 5 } ∧
    getValidatorFromTag "number,min=-2.25,max=0.5" =
      .number { Min := .fin (-(9 * 2 ^ 1072)), Max := .fin (2 ^ 1073) } ∧
    getValidatorFromTag "number,max=0.5" = .number { Min := .fin 0, Max := .fin (2 ^ 1073) } := by
  have n1 : PlainNumeral "-2.25".data :=
    ⟨['-'], '2', [], ['2', '5'], Or.inr rfl, by decide, by decide, by decide, Or.inr rfl⟩
  have n2 : PlainNumeral "0.5".data :=
    ⟨[], '0', [], ['5'], Or.inl rfl, by decide, by decide, by decide, Or.inr rfl⟩
  have c1 : convertFloat "-2.25".data = some (.fin (-(9 * 2 ^ 1072))) := by decide!
  have c2 : convertFloat "0.5".data = some (.fin (2 ^ 1073)) := by decide!
  have h1 := tag_bounds 1 5 (by decide) (by decide) _ _ _ _ n1 n2 c1 c2
  have h2 := tag_bounds (-3) 5 (by decide) (by decide) _ _ _ _
    (plainNumeral_Itoa (-3)) (plainNumeral_Itoa 5)
    (convertFloat_Itoa (-3) (by decide)) (convertFloat_Itoa 5 (by decide))
  have e1 : String.mk ("string,min=".data ++ Itoa 1 ++ ",max=".data ++ Itoa 5) =
      "string,min=1,max=5" := by decide
  have e2 : String.mk ("string,min=".data ++ Itoa (-3)) = "string,min=-3" := by decide
  have e3 : String.mk ("number,min=".data ++ Itoa (-3) ++ ",max=".data ++ Itoa 5) =
      "number,min=-3,max=5" := by decide
  have e4 : String.mk ("number,min=".data ++ "-2.25".data ++ ",max=".data ++ "0.5".data) =
      "number,min=-2.25,max=0.5" := by decide
  have e5 : String.mk ("number,max=".data ++ "0.5".data) = "number,max=0.5" := by decide
  rw [e1, e4, e5] at h1
  rw [e2, e3] at h2
  exact ⟨h1.1.1, h2.1.2.1, h2.2.1.1, h1.2.1.1, h1.2.1.2.2⟩

theorem F64.zero_window (x : F64) :
    (x.lt (.fin 0) = false ∧ x.gt (.fin 0) = false) ↔ (x = .fin 0 ∨ x = .nan) := by
  cases x with
  | nan => simp [F64.lt, F64.gt]
  | ninf => simp [F64.lt, F64.gt]
  | pinf => simp [F64.lt, F64.gt]
  | fin k =>
    simp only [F64.lt, F64.gt, decide_eq_false_iff_not, F64.fin.injEq, reduceCtorEq, or_false]
    omega

/-- C10 (as amended): a tag with neither bound yields the checker with both bounds
0, and both are enforced, as the upper bound is not below the lower one: the
checker of the tag `number` accepts a value exactly when it is 0 (or NaN), the
checker of the tag `string` accepts exactly the empty string. -/
theorem bare_kind_checkers (L : Library) :
    (getValidatorFromTag "number" = .number { Min := .fin 0, Max := .fin 0 } ∧
      ∀ val : Value, isValid ((getValidatorFromTag "number").Validate L val) = true ↔
        (numOf val = .fin 0 ∨ numOf val = .nan)) ∧
    (getValidatorFromTag "string" = .string { Min := 0, Max := 0 } ∧
      ∀ s : String, isValid ((getValidatorFromTag "string").Validate L (.str s)) = true ↔
        s = "") := by
  have hn : getValidatorFromTag "number" = .number { Min := .fin 0, Max := .fin 0 } := by decide
  have hs : getValidatorFromTag "string" = .string { Min := 0, Max := 0 } := by decide
  refine ⟨⟨hn, ?_⟩, hs, ?_⟩
  · intro val
    rw [hn, Validator.Validate, number_validate_general, ← F64.zero_window]
    have h0 : F64.ge (.fin 0) (.fin 0) = true := by decide
    simp only [h0, true_and, Bool.not_eq_true]
  · intro s
    rw [hs, Validator.Validate, StringValidator.isValid_iff]
    have hl : s.length = 0 ↔ s = "" := by
      cases s with
      | mk data =>
        cases data with
        | nil => simp [String.length]
        | cons c t =>
          simp only [String.length, List.length_cons, Nat.add_one_ne_zero, false_iff]
          intro h
          exact absurd (congrArg String.data h) (by simp)
    rw [← hl]
    simp only [le_refl, lt_self_iff_false, false_or, Nat.cast_nonneg, true_and]
    omega

/-- Counterexample to C10 as stated: the checker of the tag `number` rejects the
integer 1, and the checker of the tag `string` rejects the string `a`. -/
theorem bare_kind_not_unconstrained :
    (∀ L : Library, (getValidatorFromTag "number").Validate L (.int 1) =
      some (false, some ("不能超过" ++ L.formatF2 (.fin 0)))) ∧
    (∀ L : Library, (getValidatorFromTag "string").Validate L (.str "a") =
      some (false, some "最大长度为0位")) := by
  have hn : getValidatorFromTag "number" = .number { Min := .fin 0, Max := .fin 0 } := by decide
  have hs : getValidatorFromTag "string" = .string { Min := 0, Max := 0 } := by decide
  have h1 : (F64.ofInt 1).lt (.fin 0) = false := by decide!
  have h2 : F64.lt (.fin 0) (F64.ofInt 1) = true := by decide!
  constructor
  · intro L
    rw [hn]
    simp only [Validator.Validate, NumberValidator.Validate, numOf, h1, F64.gt, h2]
    rfl
  · intro L
    rw [hs]
    simp only [Validator.Validate]
    decide

theorem Split_ne_nil (s : List Char) (sep : Char) : Split s sep ≠ [] := by
  cases s with
  | nil => simp [Split]
  | cons c t =>
    rw [Split]
    split
    · simp
    · split <;> simp

theorem Join_cons_cons (e f : List Char) (r : List (List Char)) (sep : Char) :
    Join (e :: f :: r) sep = e ++ sep :: Join (f :: r) sep := by
  rw [Join]
  intro h
  cases h

theorem Join_Split (s : List Char) (sep : Char) : Join (Split s sep) sep = s := by
  induction s with
  | nil => rfl
  | cons c t ih =>
    rw [Split]
    obtain ⟨h, r, hs⟩ : ∃ h r, Split t sep = h :: r := by
      cases hs : Split t sep with
      | nil => exact absurd hs (Split_ne_nil t sep)
      | cons h r => exact ⟨h, r, rfl⟩
    rw [hs] at ih
    split
    · rename_i hc
      rw [hs, Join_cons_cons, ih, hc]
      rfl
    · rw [hs]
      simp only []
      cases r with
      | nil =>
        rw [Join_one] at ih
        rw [Join_one, ih]
      | cons f r =>
        rw [Join_cons_cons] at ih
        rw [Join_cons_cons, List.cons_append, ih]

theorem scanLiteral_none (text inp : List Char) (h : ¬ text <+: inp) :
    scanLiteral text inp = none := by
  induction text generalizing inp with
  | nil => exact absurd (List.nil_prefix) h
  | cons f fs ih =>
    cases inp with
    | nil => rfl
    | cons c inp =>
      rw [scanLiteral]
      split
      · rename_i hfc
        apply ih
        intro hp
        apply h
        rw [hfc]
        exact (List.prefix_cons_inj c).2 hp
      · rfl

theorem scanOne_s (inp : List Char) :
    scanOne 's' inp = (scanString inp).map fun r => (.str r.1, r.2) := by
  rw [scanOne, if_neg (by decide), if_neg (by decide), if_pos rfl]

theorem isSpace_newline : isSpace '\r' = true ∧ isSpace '\n' = true := by decide

theorem scanString_word (p : List Char) (hne : p ≠ []) (hp : ∀ c ∈ p, isSpace c = false) :
    scanString p = some (String.mk p, []) := by
  cases p with
  | nil => exact absurd rfl hne
  | cons c t =>
    have hc := hp c (List.mem_cons_self _ _)
    have h1 : c ≠ '\r' := fun e => by rw [e, isSpace_newline.1] at hc; cases hc
    have h2 : c ≠ '\n' := fun e => by rw [e, isSpace_newline.2] at hc; cases hc
    have hs : SkipSpace (c :: t) = some (c :: t) := by
      rw [SkipSpace]
      simp [h1, h2, hc]
    have htw := takeWhile_append_stop (p := fun c => !isSpace c) (c :: t) []
      (fun d hd => by simp [hp d hd]) (fun d hd => by simp at hd)
    rw [List.append_nil] at htw
    rw [scanString, hs]
    simp only [htw.1, htw.2]

theorem getValidatorFromTag_regex (tag : String) (arg1 : List (List Char))
    (h : Split tag.data ',' = "regex".data :: arg1) :
    getValidatorFromTag tag =
      .regex { Pattern := stringArg (Sscanf (Join arg1 ',') "pattern=%s") 0 } := by
  have h1 : (some "regex".data : Option (List Char)) ≠ some "number".data := by decide
  have h2 : (some "regex".data : Option (List Char)) ≠ some "string".data := by decide
  have h3 : (some "regex".data : Option (List Char)) ≠ some "email".data := by decide
  simp only [getValidatorFromTag, h, List.head?_cons, List.tail_cons, h1, h2, h3, if_false,
    if_true]

theorem Sscanf_pattern (p : List Char) (hp : ∀ c ∈ p, isSpace c = false) :
    stringArg (Sscanf ("pattern=".data ++ p) "pattern=%s") 0 = String.mk p := by
  have hd : directives "pattern=%s".data = [.lit "pattern=".data, .verb 's'] := by decide
  rw [Sscanf, hd]
  simp only [doScanf, scanLiteral_append, scanOne_s]
  by_cases hne : p = []
  · subst hne
    simp [scanString, SkipSpace, stringArg]
  · rw [scanString_word p hne hp]
    simp [stringArg]

theorem Sscanf_no_pattern (p : List Char) (h : ¬ "pattern=".data <+: p) :
    stringArg (Sscanf p "pattern=%s") 0 = "" := by
  have hd : directives "pattern=%s".data = [.lit "pattern=".data, .verb 's'] := by decide
  rw [Sscanf, hd]
  simp only [doScanf, scanLiteral_none _ _ h]
  rfl

/-- C11 (as amended): for every string `p` without white space,
`getValidatorFromTag("regex,pattern=" ++ p)` returns `RegexValidator{Pattern: p}`,
commas of `p` included; for every `p` that does not begin with `pattern=`,
`getValidatorFromTag("regex," ++ p)` returns the checker with the empty pattern. -/
theorem tag_regex_pattern (p : String) :
    ((∀ c ∈ p.data, isSpace c = false) →
      getValidatorFromTag (String.mk ("regex,pattern=".data ++ p.data)) =
        .regex { Pattern := p }) ∧
    (¬ "pattern=".data <+: p.data →
      getValidatorFromTag (String.mk ("regex,".data ++ p.data)) = .regex { Pattern := "" }) := by
  have hs : ',' ∉ "regex".data := by decide
  constructor
  · intro hp
    have e : "regex,pattern=".data ++ p.data = "regex".data ++ ',' :: ("pattern=".data ++ p.data) := by
      simp [List.append_assoc]
    rw [getValidatorFromTag_regex _ (Split ("pattern=".data ++ p.data) ',')
      (by rw [e, Split_append _ _ _ hs]), Join_Split, Sscanf_pattern p.data hp]
  · intro hp
    have e : "regex,".data ++ p.data = "regex".data ++ ',' :: p.data := by
      simp [List.append_assoc]
    rw [getValidatorFromTag_regex _ (Split p.data ',')
      (by rw [e, Split_append _ _ _ hs]), Join_Split, Sscanf_no_pattern p.data hp]

/-- Witness of C11: a pattern with a comma after `pattern=` is kept whole, a
pattern written right after the kind is lost. -/
theorem tag_regex_pattern_witness :
    getValidatorFromTag "regex,pattern=^[a-z]{2,3}$" = .regex { Pattern := "^[a-z]{2,3}$" } ∧
    getValidatorFromTag "regex,^a+$" = .regex { Pattern := "" } := by
  have h := tag_regex_pattern "^[a-z]{2,3}$"
  have h2 := tag_regex_pattern "^a+$"
  exact ⟨h.1 (by decide), h2.2 (by decide)⟩

/-- Counterexample to C11 as stated: the text after `regex,` is not the pattern.
Without `pattern=` the pattern is empty, and after `pattern=` it stops at the first
space. -/
theorem tag_regex_not_verbatim :
    getValidatorFromTag "regex,^a+$" = .regex { Pattern := "" } ∧
    getValidatorFromTag "regex,pattern=a b" = .regex { Pattern := "a" } := by
  constructor <;> decide

theorem default_valid_iff (val : Value) (r : Result)
    (h : DefaultValidator.Validate val = some r) : (r.1 = true ↔ r.2 = none) := by
  simp only [DefaultValidator.Validate, Option.some.injEq] at h
  subst h
  simp

theorem string_valid_iff (v : StringValidator) (val : Value) (r : Result)
    (h : v.Validate val = some r) : (r.1 = true ↔ r.2 = none) := by
  cases val with
  | str s =>
    rw [stringValidator_validate_str] at h
    split at h
    · split at h <;> (simp only [Option.some.injEq] at h; subst h; simp)
    · split at h <;> (simp only [Option.some.injEq] at h; subst h; simp)
  | float64 x => simp [StringValidator.Validate] at h
  | int64 i => simp [StringValidator.Validate] at h
  | int32 i => simp [StringValidator.Validate] at h
  | int i => simp [StringValidator.Validate] at h
  | other => simp [StringValidator.Validate] at h

theorem regex_valid_iff (L : Library) (v : RegexValidator) (val : Value) (r : Result)
    (h : v.Validate L val = some r) : (r.1 = true ↔ r.2 = none) := by
  cases val with
  | str s =>
    simp only [RegexValidator.Validate] at h
    split at h
    · split at h
      · simp only [Option.some.injEq] at h; subst h; simp
      · split at h <;> (simp only [Option.some.injEq] at h; subst h; simp)
    · simp only [Option.some.injEq] at h; subst h; simp
  | float64 x => simp [RegexValidator.Validate] at h
  | int64 i => simp [RegexValidator.Validate] at h
  | int32 i => simp [RegexValidator.Validate] at h
  | int i => simp [RegexValidator.Validate] at h
  | other => simp [RegexValidator.Validate] at h

theorem number_valid_iff (L : Library) (v : NumberValidator) (val : Value) (r : Result)
    (h : v.Validate L val = some r) : (r.1 = true ↔ r.2 = none) := by
  simp only [NumberValidator.Validate] at h
  split at h
  · simp only [Option.some.injEq] at h; subst h; simp
  · split at h <;> (simp only [Option.some.injEq] at h; subst h; simp)

theorem email_valid_iff (val : Value) (r : Result)
    (h : EmailValidator.Validate val = some r) : (r.1 = true ↔ r.2 = none) := by
  cases val with
  | str s =>
    rw [emailValidator_validate_str] at h
    split at h <;> (simp only [Option.some.injEq] at h; subst h; simp)
  | float64 x => simp [EmailValidator.Validate] at h
  | int64 i => simp [EmailValidator.Validate] at h
  | int32 i => simp [EmailValidator.Validate] at h
  | int i => simp [EmailValidator.Validate] at h
  | other => simp [EmailValidator.Validate] at h

theorem validator_valid_iff (L : Library) (v : Validator) (val : Value) (r : Result)
    (h : v.Validate L val = some r) : (r.1 = true ↔ r.2 = none) := by
  cases v with
  | default => exact default_valid_iff val r h
  | string v => exact string_valid_iff v val r h
  | regex v => exact regex_valid_iff L v val r h
  | number v => exact number_valid_iff L v val r h
  | email => exact email_valid_iff val r h

theorem walker_condition (L : Library) (v : Validator) (val : Value) (r : Result)
    (h : v.Validate L val = some r) : (!r.1 && r.2.isSome) = !r.1 := by
  have hv := validator_valid_iff L v val r h
  cases h1 : r.1
  · cases h2 : r.2
    · exact absurd (hv.2 h2) (by simp [h1])
    · rfl
  · rfl

theorem annotated_false_iff (f : Field) :
    annotated f = false ↔ (f.type.Get "validate" = "" ∨ f.type.Get "validate" = "-") := by
  simp only [annotated, Bool.and_eq_false_iff, decide_eq_false_iff_not, ne_eq, not_not]

theorem validateFields_step (L : Library) (f : Field) (rest : List Field) (errs : List String) :
    validateFields L (f :: rest) errs =
      if annotated f = false then validateFields L rest errs
      else
        match checkerResult L f with
        | none => none
        | some _ =>
          if fails L f then validateFields L rest (errs ++ [entryOf L f])
          else validateFields L rest errs := by
  rw [validateFields_cons]
  by_cases ha : annotated f = false
  · rw [if_pos ha, if_pos ((annotated_false_iff f).1 ha)]
  · rw [if_neg ha, if_neg (fun h => ha ((annotated_false_iff f).2 h))]
    have ha' : annotated f = true := by simpa using ha
    simp only [checkerResult, fails, entryOf, ha', Bool.true_and]
    cases hI : f.Interface with
    | none => rfl
    | some val =>
      simp only []
      cases hV : (getValidatorFromTag (f.type.Get "validate")).Validate L val with
      | none => rfl
      | some r =>
        have hw := walker_condition L _ val r hV
        have hv := validator_valid_iff L _ val r hV
        obtain ⟨b, e⟩ := r
        simp only [] at hw hv ⊢
        rw [hw]
        cases b with
        | true => simp
        | false =>
          cases e with
          | none => simp at hv
          | some msg => simp

theorem validateFields_eq (L : Library) (s : List Field) (errs : List String) :
    validateFields L s errs =
      if s.all (passable L) then some (errs ++ (s.filter (fails L)).map (entryOf L))
      else none := by
  induction s generalizing errs with
  | nil => simp [validateFields]
  | cons f rest ih =>
    rw [validateFields_step]
    by_cases ha : annotated f = false
    · have hf : fails L f = false := by simp [fails, ha]
      have hp : passable L f = true := by simp [passable, ha]
      rw [if_pos ha, ih]
      simp only [List.all_cons, hp, Bool.true_and, List.filter_cons, hf, Bool.false_eq_true,
        if_false]
    · have ha' : annotated f = true := by simpa using ha
      rw [if_neg ha]
      cases hc : checkerResult L f with
      | none =>
        have hp : passable L f = false := by simp [passable, ha', hc]
        simp only [List.all_cons, hp, Bool.false_and, Bool.false_eq_true, if_false]
      | some r =>
        have hp : passable L f = true := by simp [passable, hc]
        simp only [List.all_cons, hp, Bool.true_and]
        by_cases hf : fails L f = true
        · rw [if_pos hf, ih]
          simp only [List.filter_cons, hf, if_true, List.map_cons, List.append_assoc,
            List.singleton_append]
        · rw [if_neg hf, ih]
          simp only [List.filter_cons, hf, Bool.false_eq_true, if_false]

theorem ValidateStruct_eq (L : Library) (s : List Field) :
    ValidateStruct L s =
      if s.all (passable L) then some ((s.filter (fails L)).map (entryOf L)) else none := by
  rw [ValidateStruct, validateFields_eq]
  simp

theorem getValidatorFromTag_default (tag : String)
    (hk : ∀ k ∈ ["string", "number", "regex", "email"],
      (Split tag.data ',').head? ≠ some (String.data k)) :
    getValidatorFromTag tag = .default := by
  have h1 := hk "number" (by simp)
  have h2 := hk "string" (by simp)
  have h3 := hk "email" (by simp)
  have h4 := hk "regex" (by simp)
  simp only [getValidatorFromTag, h1, h2, h3, h4, if_false]

theorem fails_default (L : Library) (f : Field)
    (h : getValidatorFromTag (f.type.Get "validate") = .default) : fails L f = false := by
  simp only [fails, checkerResult, h, Validator.Validate, DefaultValidator.Validate]
  cases f.Interface <;> simp

theorem passable_default (L : Library) (f : Field)
    (h : getValidatorFromTag (f.type.Get "validate") = .default) (hx : f.type.PkgPath = "") :
    passable L f = true := by
  simp [passable, checkerResult, h, Validator.Validate, DefaultValidator.Validate,
    Field.Interface, hx]

theorem ValidateStruct_drop (L : Library) (f : Field) (pre post : List Field)
    (hf : fails L f = false) :
    (∀ r, ValidateStruct L (pre ++ f :: post) = some r →
      ValidateStruct L (pre ++ post) = some r) ∧
    (passable L f = true →
      ValidateStruct L (pre ++ f :: post) = ValidateStruct L (pre ++ post)) := by
  simp only [ValidateStruct_eq, List.all_append, List.all_cons, List.filter_append,
    List.filter_cons, hf, Bool.false_eq_true, if_false]
  constructor
  · intro r h
    by_cases hp : passable L f = true
    · simpa [hp] using h
    · simp [hp] at h
  · intro hp
    simp [hp]

/-- C12: a tag whose first comma-separated token is none of `string`, `number`,
`regex`, `email` yields `DefaultValidator`, whose `Validate` returns `(true, nil)`
on every value; `ValidateStruct` emits no entry for a field carrying such a tag,
whatever its value: a report of the record is the report of the record without
the field, and for an exported field the two calls agree. -/
theorem unknown_kind_default (tag : String)
    (hk : ∀ k ∈ ["string", "number", "regex", "email"],
      (Split tag.data ',').head? ≠ some (String.data k)) :
    getValidatorFromTag tag = .default ∧
    (∀ (L : Library) (val : Value), Validator.default.Validate L val = some (true, none)) ∧
    (∀ (L : Library) (f : Field) (pre post : List Field), f.type.Get "validate" = tag →
      (∀ r, ValidateStruct L (pre ++ f :: post) = some r →
        ValidateStruct L (pre ++ post) = some r) ∧
      (f.type.PkgPath = "" →
        ValidateStruct L (pre ++ f :: post) = ValidateStruct L (pre ++ post))) := by
  have hd := getValidatorFromTag_default tag hk
  refine ⟨hd, fun L val => rfl, ?_⟩
  intro L f pre post ht
  have hd' : getValidatorFromTag (f.type.Get "validate") = .default := by rw [ht]; exact hd
  have h := ValidateStruct_drop L f pre post (fails_default L f hd')
  exact ⟨h.1, fun hx => h.2 (passable_default L f hd' hx)⟩

/-- Witness of C12: a field of the unknown kind `date` adds nothing to the
report. -/
theorem unknown_kind_default_witness :
    getValidatorFromTag "date,2006-01-02" = .default ∧
    ValidateStruct sampleLibrary
        [⟨⟨"Name", "", [("validate", "string,min=1")]⟩, .str ""⟩,
         ⟨⟨"Born", "", [("validate", "date,2006-01-02")]⟩, .int 7⟩] =
      some ["Name不能为空"] := by
  have h := unknown_kind_default "date,2006-01-02" (by decide)
  refine ⟨h.1, ?_⟩
  have h2 := (h.2.2 sampleLibrary ⟨⟨"Born", "", [("validate", "date,2006-01-02")]⟩, .int 7⟩
    [⟨⟨"Name", "", [("validate", "string,min=1")]⟩, .str ""⟩] [] rfl).2 rfl
  rw [List.append_nil] at h2
  exact h2.trans (by decide)

theorem zero_number_valid_iff (L : Library) (val : Value) :
    isValid (NumberValidator.Validate L { Min := .fin 0, Max := .fin 0 } val) = true ↔
      (numOf val = .fin 0 ∨ numOf val = .nan) := by
  rw [number_validate_general, ← F64.zero_window]
  have h0 : F64.ge (.fin 0) (.fin 0) = true := by decide
  simp only [h0, true_and, Bool.not_eq_true]

theorem string_length_eq_zero_iff (s : String) : s.length = 0 ↔ s = "" := by
  cases s with
  | mk data =>
    cases data with
    | nil => simp [String.length]
    | cons c t =>
      simp only [String.length, List.length_cons, Nat.add_one_ne_zero, false_iff]
      intro h
      exact absurd (congrArg String.data h) (by simp)

theorem zero_string_valid_iff (s : String) :
    isValid (StringValidator.Validate { Min := 0, Max := 0 } (.str s)) = true ↔ s = "" := by
  rw [StringValidator.isValid_iff, ← string_length_eq_zero_iff]
  simp only [le_refl, lt_self_iff_false, false_or, Nat.cast_nonneg, true_and]
  omega

theorem malformed_string_params (tag : String) (arg1 : List (List Char))
    (hs : Split tag.data ',' = "string".data :: arg1)
    (hbad : 2 < arg1.length ∨
      ∃ t, arg1 = [t] ∧ Contains t "min".data = false ∧ Contains t "max".data = false) :
    getValidatorFromTag tag = .string { Min := 0, Max := 0 } := by
  rw [getValidatorFromTag_string tag arg1 hs]
  rcases hbad with h | ⟨t, rfl, h1, h2⟩
  · rw [if_neg (by omega), if_neg (by omega)]
  · simp [h1, h2]

theorem malformed_number_params (tag : String) (arg1 : List (List Char))
    (hs : Split tag.data ',' = "number".data :: arg1)
    (hbad : 2 < arg1.length ∨
      ∃ t, arg1 = [t] ∧ Contains t "min".data = false ∧ Contains t "max".data = false) :
    getValidatorFromTag tag = .number { Min := .fin 0, Max := .fin 0 } := by
  rw [getValidatorFromTag_number tag arg1 hs]
  rcases hbad with h | ⟨t, rfl, h1, h2⟩
  · rw [if_neg (by omega), if_neg (by omega)]
  · simp [h1, h2]

theorem fails_annotated (L : Library) (f : Field) (h : fails L f = true) : annotated f = true := by
  simp only [fails, Bool.and_eq_true] at h
  exact h.1

theorem passable_of_not_annotated (L : Library) (f : Field) (h : annotated f = false) :
    passable L f = true := by
  simp [passable, h]

theorem filter_annotated_all (L : Library) (s : List Field) :
    (s.filter annotated).all (passable L) = s.all (passable L) := by
  induction s with
  | nil => rfl
  | cons f rest ih =>
    by_cases ha : annotated f = true
    · simp only [List.filter_cons, ha, if_true, List.all_cons, ih]
    · have ha' : annotated f = false := by simpa using ha
      simp only [List.filter_cons, ha', Bool.false_eq_true, if_false, List.all_cons,
        passable_of_not_annotated L f ha', Bool.true_and, ih]

theorem filter_annotated_fails (L : Library) (s : List Field) :
    (s.filter annotated).filter (fails L) = s.filter (fails L) := by
  induction s with
  | nil => rfl
  | cons f rest ih =>
    by_cases ha : annotated f = true
    · simp only [List.filter_cons, ha, if_true, ih]
    · have ha' : annotated f = false := by simpa using ha
      have hf : fails L f = false := by simp [fails, ha']
      simp only [List.filter_cons, ha', hf, Bool.false_eq_true, if_false, ih]

/-- C14: `ValidateStruct` skips every field whose `validate` tag is absent (empty)
or is `-`: the result is the one of the record with those fields removed, such a
field changes nothing whatever its value, and a record with no annotated field
yields the empty report. -/
theorem skipped_fields (L : Library) (s : List Field) :
    ValidateStruct L s = ValidateStruct L (s.filter annotated) ∧
    (∀ (pre post : List Field) (f : Field),
      (f.type.Get "validate" = "" ∨ f.type.Get "validate" = "-") →
      ValidateStruct L (pre ++ f :: post) = ValidateStruct L (pre ++ post)) ∧
    ((∀ f ∈ s, f.type.Get "validate" = "" ∨ f.type.Get "validate" = "-") →
      ValidateStruct L s = some []) := by
  refine ⟨?_, ?_, ?_⟩
  · rw [ValidateStruct_eq, ValidateStruct_eq, filter_annotated_all, filter_annotated_fails]
  · intro pre post f hf
    have ha := (annotated_false_iff f).2 hf
    have hfl : fails L f = false := by simp [fails, ha]
    exact (ValidateStruct_drop L f pre post hfl).2 (passable_of_not_annotated L f ha)
  · intro h
    have hall : s.all (passable L) = true := by
      rw [List.all_eq_true]
      intro f hf
      exact passable_of_not_annotated L f ((annotated_false_iff f).2 (h f hf))
    have hnone : s.filter (fails L) = [] := by
      rw [List.filter_eq_nil_iff]
      intro f hf hfl
      have := fails_annotated L f hfl
      rw [(annotated_false_iff f).2 (h f hf)] at this
      cases this
    rw [ValidateStruct_eq, if_pos hall, hnone]
    rfl

/-- Witness of C14: a record of a field without `validate` tag and an unexported
field with the tag `-`. -/
theorem skipped_fields_witness :
    ValidateStruct sampleLibrary
        [⟨⟨"Id", "", [("json", "id")]⟩, .int 0⟩,
         ⟨⟨"secret", "main", [("validate", "-")]⟩, .other⟩] = some [] :=
  (skipped_fields sampleLibrary _).2.2 (by decide)

theorem all_passable_iff (L : Library) (s : List Field) :
    s.all (passable L) = true ↔
      ∀ f ∈ s, annotated f = true → (checkerResult L f).isSome = true := by
  rw [List.all_eq_true]
  constructor
  · intro h f hf ha
    have := h f hf
    simpa [passable, ha] using this
  · intro h f hf
    by_cases ha : annotated f = true
    · simp [passable, h f hf ha]
    · have ha' : annotated f = false := by simpa using ha
      exact passable_of_not_annotated L f ha'

/-- C15: a report returned by `ValidateStruct` is the list of the entries of the
annotated fields whose checker fails, one for each and no other, in the order of
the fields (so `k` failing fields give `k` entries, not only the first), and it is
empty exactly when no annotated field fails; the report is returned whenever the
checker of every annotated field returns. -/
theorem report_entries (L : Library) (s : List Field) :
    (∀ r, ValidateStruct L s = some r →
      r = (s.filter (fails L)).map (entryOf L) ∧
      r.length = (s.filter (fails L)).length ∧
      (r = [] ↔ ∀ f ∈ s, fails L f = false)) ∧
    ((∀ f ∈ s, annotated f = true → (checkerResult L f).isSome = true) →
      ValidateStruct L s = some ((s.filter (fails L)).map (entryOf L))) := by
  constructor
  · intro r hr
    rw [ValidateStruct_eq] at hr
    split at hr
    · simp only [Option.some.injEq] at hr
      subst hr
      refine ⟨rfl, by simp, ?_⟩
      rw [List.map_eq_nil_iff, List.filter_eq_nil_iff]
      constructor
      · intro h f hf
        cases hfl : fails L f
        · rfl
        · exact absurd hfl (h f hf)
      · intro h f hf hfl
        rw [h f hf] at hfl
        cases hfl
    · cases hr
  · intro h
    rw [ValidateStruct_eq, if_pos ((all_passable_iff L s).2 h)]

/-- Witness of C15: of three annotated fields the first and the third fail, and
the report holds their two entries in that order. -/
theorem report_entries_witness :
    ValidateStruct sampleLibrary
        [⟨⟨"Name", "", [("validate", "string,min=1")]⟩, .str ""⟩,
         ⟨⟨"Nick", "", [("validate", "string,min=1,max=3")]⟩, .str "ab"⟩,
         ⟨⟨"Mail", "", [("validate", "email"), ("json", "mail")]⟩, .str "x"⟩] =
      some ["Name不能为空", "mailis not a valid email address"] :=
  ((report_entries sampleLibrary _).2 (by decide)).trans (by decide)

theorem fails_result (L : Library) (f : Field) (h : fails L f = true) :
    ∃ msg, checkerResult L f = some (false, some msg) := by
  simp only [fails, Bool.and_eq_true] at h
  have h2 := h.2
  cases hc : checkerResult L f with
  | none => rw [hc] at h2; cases h2
  | some r =>
    obtain ⟨b, e⟩ := r
    cases b with
    | true => rw [hc] at h2; cases h2
    | false =>
      have hv : ∃ val, (getValidatorFromTag (f.type.Get "validate")).Validate L val =
          some (false, e) := by
        simp only [checkerResult] at hc
        cases hI : f.Interface with
        | none => rw [hI] at hc; cases hc
        | some val => rw [hI] at hc; exact ⟨val, hc⟩
      obtain ⟨val, hval⟩ := hv
      have := validator_valid_iff L _ val _ hval
      cases e with
      | none => simp at this
      | some msg => exact ⟨msg, rfl⟩

/-- C16: for a failing field, with `msg` the text of the error of its checker, the
entry in any report returned is the label directly followed by `msg`, between the
entries of the fields before and after it; the label is the `msg` tag when it is
not empty, else the `json` tag when it is not empty, else the declared name. -/
theorem entry_label_message (L : Library) (f : Field) (hf : fails L f = true) :
    ∃ msg, checkerResult L f = some (false, some msg) ∧
      ∀ (pre post : List Field),
        (∀ r, ValidateStruct L (pre ++ f :: post) = some r →
          ∃ r1 r2, ValidateStruct L pre = some r1 ∧ ValidateStruct L post = some r2 ∧
            r = r1 ++
              ((if f.type.Get "msg" ≠ "" then f.type.Get "msg"
                else if f.type.Get "json" ≠ "" then f.type.Get "json"
                else f.type.Name) ++ msg) :: r2) ∧
        (∀ r1 r2, ValidateStruct L pre = some r1 → ValidateStruct L post = some r2 →
          ValidateStruct L (pre ++ f :: post) = some (r1 ++
              ((if f.type.Get "msg" ≠ "" then f.type.Get "msg"
                else if f.type.Get "json" ≠ "" then f.type.Get "json"
                else f.type.Name) ++ msg) :: r2)) := by
  obtain ⟨msg, hmsg⟩ := fails_result L f hf
  refine ⟨msg, hmsg, fun pre post => ?_⟩
  have he : entryOf L f = (if f.type.Get "msg" ≠ "" then f.type.Get "msg"
      else if f.type.Get "json" ≠ "" then f.type.Get "json" else f.type.Name) ++ msg := by
    simp only [entryOf, hmsg, displayName]
  have hp : passable L f = true := by simp [passable, hmsg]
  simp only [ValidateStruct_eq, List.all_append, List.all_cons, hp, Bool.true_and,
    List.filter_append, List.filter_cons, hf, if_true, List.map_append, List.map_cons, he,
    Bool.and_eq_true]
  constructor
  · intro r hr
    split at hr
    · rename_i hall
      simp only [Option.some.injEq] at hr
      exact ⟨_, _, by rw [if_pos hall.1], by rw [if_pos hall.2], hr.symm⟩
    · cases hr
  · intro r1 r2 h1 h2
    split at h1
    · split at h2
      · rename_i ha hb
        simp only [Option.some.injEq] at h1 h2
        rw [if_pos ⟨ha, hb⟩, h1, h2]
      · cases h2
    · cases h1

/-- Witness of C16: the `msg` tag takes precedence over the `json` tag and the
name. -/
theorem entry_label_message_witness :
    ValidateStruct sampleLibrary
        [⟨⟨"Mail", "", [("validate", "email"), ("json", "mail"), ("msg", "邮箱")]⟩, .str "x"⟩] =
      some ["邮箱is not a valid email address"] := by
  obtain ⟨msg, hmsg, h⟩ := entry_label_message sampleLibrary
    ⟨⟨"Mail", "", [("validate", "email"), ("json", "mail"), ("msg", "邮箱")]⟩, .str "x"⟩
    (by decide)
  have hm : msg = "is not a valid email address" := by
    have h0 : checkerResult sampleLibrary
        ⟨⟨"Mail", "", [("validate", "email"), ("json", "mail"), ("msg", "邮箱")]⟩, .str "x"⟩ =
        some (false, some "is not a valid email address") := by decide
    rw [h0] at hmsg
    simp only [Option.some.injEq, Prod.mk.injEq, true_and] at hmsg
    exact hmsg.symm
  have h2 := (h [] []).2 [] [] rfl rfl
  rw [hm] at h2
  exact h2.trans (by decide)

/-- C17 (as amended): for every record with exactly one field, exported, annotated
`string,min=1` and holding the empty string, `ValidateStruct` returns a report of
exactly one error: the label of the field (its `msg` tag, else its `json` tag, else
its name) directly followed by the "empty" message. -/
theorem string_min1_empty (L : Library) (f : Field)
    (ht : f.type.Get "validate" = "string,min=1") (hv : f.value = .str "")
    (hx : f.type.PkgPath = "") :
    ValidateStruct L [f] =
      some [(if f.type.Get "msg" ≠ "" then f.type.Get "msg"
             else if f.type.Get "json" ≠ "" then f.type.Get "json"
             else f.type.Name) ++ "不能为空"] := by
  have hg : getValidatorFromTag "string,min=1" = .string { Min := 1, Max := 0 } := by decide
  have hr : StringValidator.Validate { Min := 1, Max := 0 } (.str "") =
      some (false, some "不能为空") := by decide
  have h1 : ("string,min=1" : String) ≠ "" := by decide
  have h2 : ("string,min=1" : String) ≠ "-" := by decide
  rw [ValidateStruct, validateFields_cons]
  simp only [ht, h1, h2, or_self, if_false, Field.Interface, hx, if_true, hg,
    Validator.Validate, hv, hr, Bool.not_false, Option.isSome_some, Bool.and_self,
    Option.getD_some, validateFields, List.nil_append, displayName]

/-- Witness of C17: a field with a `json` tag and no `msg` tag. -/
theorem string_min1_empty_witness :
    ValidateStruct sampleLibrary
        [⟨⟨"Name", "", [("validate", "string,min=1"), ("json", "name")]⟩, .str ""⟩] =
      some ["name不能为空"] :=
  (string_min1_empty sampleLibrary
    ⟨⟨"Name", "", [("validate", "string,min=1"), ("json", "name")]⟩, .str ""⟩
    rfl rfl rfl).trans (by decide)

/-- Counterexample to C17 as stated: when the one field is unexported no report is
returned, as reading the value of the field panics. -/
theorem string_min1_unexported :
    ¬ ∃ (L : Library) (r : List String),
      ValidateStruct L
        [⟨⟨"name", "main", [("validate", "string,min=1")]⟩, .str ""⟩] = some r := by
  rintro ⟨L, r, h⟩
  have h1 : ("string,min=1" : String) ≠ "" := by decide
  have h2 : ("string,min=1" : String) ≠ "-" := by decide
  have hp : ("main" : String) ≠ "" := by decide
  rw [ValidateStruct, validateFields_cons] at h
  simp [StructField.Get, List.lookup, Field.Interface, h1, h2, hp] at h

theorem isString_iff (val : Value) : isString val = true ↔ ∃ s, val = .str s := by
  cases val <;> simp [isString]

theorem validate_isSome_iff (L : Library) (v : Validator) (val : Value) :
    (v.Validate L val).isSome = true ↔ (needsString v = false ∨ isString val = true) := by
  cases v with
  | default => simp [Validator.Validate, DefaultValidator.Validate, needsString]
  | number v =>
    simp only [Validator.Validate, NumberValidator.Validate, needsString, true_or, iff_true]
    split
    · rfl
    · split <;> rfl
  | string v =>
    cases val with
    | str s =>
      simp only [Validator.Validate, needsString, isString, or_true, iff_true]
      rw [stringValidator_validate_str]
      split
      · split <;> rfl
      · split <;> rfl
    | float64 x => simp [Validator.Validate, StringValidator.Validate, needsString, isString]
    | int64 i => simp [Validator.Validate, StringValidator.Validate, needsString, isString]
    | int32 i => simp [Validator.Validate, StringValidator.Validate, needsString, isString]
    | int i => simp [Validator.Validate, StringValidator.Validate, needsString, isString]
    | other => simp [Validator.Validate, StringValidator.Validate, needsString, isString]
  | regex v =>
    cases val with
    | str s =>
      simp only [Validator.Validate, needsString, isString, or_true, iff_true,
        RegexValidator.Validate]
      split
      · split
        · rfl
        · split <;> rfl
      · rfl
    | float64 x => simp [Validator.Validate, RegexValidator.Validate, needsString, isString]
    | int64 i => simp [Validator.Validate, RegexValidator.Validate, needsString, isString]
    | int32 i => simp [Validator.Validate, RegexValidator.Validate, needsString, isString]
    | int i => simp [Validator.Validate, RegexValidator.Validate, needsString, isString]
    | other => simp [Validator.Validate, RegexValidator.Validate, needsString, isString]
  | email =>
    cases val with
    | str s =>
      simp only [Validator.Validate, needsString, isString, or_true, iff_true]
      rw [emailValidator_validate_str]
      split <;> rfl
    | float64 x => simp [Validator.Validate, EmailValidator.Validate, needsString, isString]
    | int64 i => simp [Validator.Validate, EmailValidator.Validate, needsString, isString]
    | int32 i => simp [Validator.Validate, EmailValidator.Validate, needsString, isString]
    | int i => simp [Validator.Validate, EmailValidator.Validate, needsString, isString]
    | other => simp [Validator.Validate, EmailValidator.Validate, needsString, isString]

theorem checkerResult_isSome_iff (L : Library) (f : Field) :
    (checkerResult L f).isSome = true ↔ (f.type.PkgPath = "" ∧ wellTyped f = true) := by
  simp only [checkerResult, Field.Interface, wellTyped]
  by_cases hx : f.type.PkgPath = ""
  · simp only [hx, if_true, true_and]
    rw [validate_isSome_iff]
    cases needsString (getValidatorFromTag (f.type.Get "validate")) <;> simp
  · simp [hx]

theorem ValidateStruct_returns (L : Library) (s : List Field) :
    (∃ r, ValidateStruct L s = some r) ↔
      ∀ f ∈ s, annotated f = true → (f.type.PkgPath = "" ∧ wellTyped f = true) := by
  rw [ValidateStruct_eq]
  have hiff : s.all (passable L) = true ↔
      ∀ f ∈ s, annotated f = true → (f.type.PkgPath = "" ∧ wellTyped f = true) := by
    rw [all_passable_iff]
    constructor
    · intro h f hf ha
      exact (checkerResult_isSome_iff L f).1 (h f hf ha)
    · intro h f hf ha
      exact (checkerResult_isSome_iff L f).2 (h f hf ha)
  rw [← hiff]
  by_cases hall : s.all (passable L) = true
  · simp [hall]
  · simp [hall]

/-- C18 (as amended): `ValidateStruct` returns a report exactly on the records in
which every annotated field is exported and every field whose checker is the
Length, Pattern or Email checker holds a string; on a value that is not a string
the type assertion of these three checkers fails. -/
theorem validate_struct_returns_iff (L : Library) (s : List Field) :
    ((∃ r, ValidateStruct L s = some r) ↔
      ∀ f ∈ s, annotated f = true → (f.type.PkgPath = "" ∧ wellTyped f = true)) ∧
    (∀ (v : Validator) (val : Value), needsString v = true → isString val = false →
      v.Validate L val = none) := by
  refine ⟨ValidateStruct_returns L s, ?_⟩
  intro v val hn hs
  have h := validate_isSome_iff L v val
  rw [hn, hs] at h
  cases hv : v.Validate L val with
  | none => rfl
  | some r =>
    rw [hv] at h
    simp at h

/-- Witness of C18: a record is read through although a field annotated `number`
holds a string, as the Range checker asserts no type. -/
theorem validate_struct_returns_iff_witness :
    (∃ r, ValidateStruct sampleLibrary
        [⟨⟨"Name", "", [("validate", "string,min=1")]⟩, .str "x"⟩,
         ⟨⟨"Age", "", [("validate", "number,min=1")]⟩, .str "x"⟩] = some r) :=
  (validate_struct_returns_iff sampleLibrary _).1.2 (by decide)

/-- Counterexample to C18 as stated: on a record whose field annotated
`string,min=1` holds the integer 3 no report is returned, and on that value the
type assertion of each of the three checkers fails. -/
theorem validate_struct_aborts :
    (¬ ∃ (L : Library) (r : List String),
      ValidateStruct L [⟨⟨"Age", "", [("validate", "string,min=1")]⟩, .int 3⟩] = some r) ∧
    StringValidator.Validate { Min := 1, Max := 0 } (.int 3) = none ∧
    (∀ L : Library, RegexValidator.Validate L { Pattern := "a" } (.int 3) = none) ∧
    EmailValidator.Validate (.int 3) = none := by
  refine ⟨?_, rfl, fun L => rfl, rfl⟩
  rintro ⟨L, r, h⟩
  have h2 := (ValidateStruct_returns L _).1 ⟨r, h⟩
    ⟨⟨"Age", "", [("validate", "string,min=1")]⟩, .int 3⟩ (List.mem_singleton.2 rfl)
    (by decide)
  exact absurd h2.2 (by decide)

/-- C19: whenever `Validate` returns, for each of the five checkers, its result is
`true` exactly when its error is `nil`; hence the condition `!valid && err != nil`
of the walker is the condition `!valid`, and the entry of every failing field is in
the report returned. -/
theorem valid_iff_no_error (L : Library) :
    (∀ (val : Value) (r : Result),
      DefaultValidator.Validate val = some r → (r.1 = true ↔ r.2 = none)) ∧
    (∀ (v : StringValidator) (val : Value) (r : Result),
      v.Validate val = some r → (r.1 = true ↔ r.2 = none)) ∧
    (∀ (v : RegexValidator) (val : Value) (r : Result),
      v.Validate L val = some r → (r.1 = true ↔ r.2 = none)) ∧
    (∀ (v : NumberValidator) (val : Value) (r : Result),
      v.Validate L val = some r → (r.1 = true ↔ r.2 = none)) ∧
    (∀ (val : Value) (r : Result),
      EmailValidator.Validate val = some r → (r.1 = true ↔ r.2 = none)) ∧
    (∀ (v : Validator) (val : Value) (r : Result),
      v.Validate L val = some r → (!r.1 && r.2.isSome) = !r.1) ∧
    (∀ (s : List Field) (rep : List String), ValidateStruct L s = some rep →
      ∀ f ∈ s, fails L f = true → entryOf L f ∈ rep) := by
  refine ⟨default_valid_iff, string_valid_iff, regex_valid_iff L, number_valid_iff L,
    email_valid_iff, walker_condition L, ?_⟩
  intro s rep hrep f hf hfl
  rw [ValidateStruct_eq] at hrep
  split at hrep
  · simp only [Option.some.injEq] at hrep
    rw [← hrep]
    exact List.mem_map.2 ⟨f, List.mem_filter.2 ⟨hf, hfl⟩, rfl⟩
  · cases hrep

/-- Witness of C19: the entry of a field that fails with a compile error is in the
report. -/
theorem valid_iff_no_error_witness :
    ValidateStruct sampleLibrary
        [⟨⟨"Code", "", [("validate", "regex,pattern=(")]⟩, .str "x"⟩] = some
      ["Codeerror parsing regexp: missing closing ): `(`"] ∧
    "Codeerror parsing regexp: missing closing ): `(`" ∈
      ["Codeerror parsing regexp: missing closing ): `(`"] := by
  have h : ValidateStruct sampleLibrary
      [⟨⟨"Code", "", [("validate", "regex,pattern=(")]⟩, .str "x"⟩] = some
      ["Codeerror parsing regexp: missing closing ): `(`"] := by decide
  have h2 := (valid_iff_no_error sampleLibrary).2.2.2.2.2.2 _ _ h
    ⟨⟨"Code", "", [("validate", "regex,pattern=(")]⟩, .str "x"⟩ (List.mem_singleton.2 rfl)
    (by decide)
  have e : entryOf sampleLibrary ⟨⟨"Code", "", [("validate", "regex,pattern=(")]⟩, .str "x"⟩ =
      "Codeerror parsing regexp: missing closing ): `(`" := by decide
  rw [e] at h2
  exact ⟨h, h2⟩

theorem F64.roundMag_pos (num : Nat) (h : 0 < num) : 0 < F64.roundMag num 1 := by
  unfold F64.roundMag
  simp only [Nat.div_one, Nat.one_mul]
  have hu : 0 < 2 ^ (F64.bitLength num - 53) := Nat.two_pow_pos _
  have hle : 2 ^ (F64.bitLength num - 53) ≤ num := by
    by_cases hsh : F64.bitLength num - 53 = 0
    · rw [hsh]; simpa using h
    · exact Nat.le_trans (Nat.pow_le_pow_right (by decide) (by omega))
        (F64.pow_bitLength_le num (by omega))
  have hn : 0 < num / 2 ^ (F64.bitLength num - 53) := Nat.div_pos hle hu
  generalize 2 ^ (F64.bitLength num - 53) = u at *
  generalize num / u = n at *
  split
  · exact Nat.mul_pos (by omega) hu
  · exact Nat.mul_pos hn hu

set_option exponentiation.threshold 4000 in
theorem F64.ofInt_sign (m : Int) (hm : -(2 : Int) ^ 63 ≤ m ∧ m < (2 : Int) ^ 63) :
    (0 < m → F64.lt (.fin 0) (F64.ofInt m) = true) ∧
    (m ≤ 0 → F64.le (F64.ofInt m) (.fin 0) = true) := by
  have hn : m.natAbs < 2 ^ 64 := by omega
  have h1 := F64.roundMag_le (m.natAbs * F64.one)
  have hone : 0 < F64.one := by unfold F64.one; exact Nat.two_pow_pos _
  have hnot : ¬ F64.huge ≤ F64.roundMag (m.natAbs * F64.one) 1 := by
    obtain ⟨k, hk⟩ := F64.ofRat_small false m.natAbs hn
    unfold F64.ofRat at hk
    simp only [] at hk
    intro hh
    rw [if_pos hh] at hk
    cases hk
  constructor
  · intro hpos
    have hp := F64.roundMag_pos (m.natAbs * F64.one) (Nat.mul_pos (by omega) hone)
    have hd : decide (m < 0) = false := by simp; omega
    rw [F64.ofInt, F64.ofRat]
    simp only [hd, if_neg hnot, Bool.false_eq_true, if_false, F64.lt, decide_eq_true_eq]
    omega
  · intro hle
    have hk0 : m = 0 → F64.roundMag (m.natAbs * F64.one) 1 = 0 := by
      intro h0
      have e : m.natAbs * F64.one = 0 := by rw [h0, Int.natAbs_zero, Nat.zero_mul]
      rw [e] at h1 ⊢
      omega
    rw [F64.ofInt, F64.ofRat]
    simp only [if_neg hnot]
    generalize F64.roundMag (m.natAbs * F64.one) 1 = k at hk0
    by_cases hneg : m < 0
    · simp only [hneg, decide_True, if_true, F64.le, F64.isNaN, F64.lt, Bool.not_false,
        Bool.true_and, Bool.not_eq_true', decide_eq_false_iff_not]
      omega
    · have hk := hk0 (by omega)
      simp only [hneg, decide_False, Bool.false_eq_true, if_false, F64.le, F64.isNaN, F64.lt,
        Bool.not_false, Bool.true_and, Bool.not_eq_true', decide_eq_false_iff_not, hk]
      omega

theorem min_only_positive (L : Library) (x : F64) (hx : F64.lt (.fin 0) x = true) (val : Value)
    (hv : x.le (numOf val) = true) :
    isValid (NumberValidator.Validate L { Min := x, Max := .fin 0 } val) = true := by
  rw [number_validate_general]
  simp only []
  generalize numOf val = v at hv
  cases x <;> cases v <;> simp_all [F64.lt, F64.le, F64.ge, F64.gt, F64.isNaN]

theorem min_only_nonpositive (L : Library) (x : F64) (hx : x.le (.fin 0) = true) (val : Value) :
    (isValid (NumberValidator.Validate L { Min := x, Max := .fin 0 } val) = true ↔
      ((x.le (numOf val) = true ∧ (numOf val).le (.fin 0) = true) ∨
        (numOf val).isNaN = true)) ∧
    (F64.lt (.fin 0) (numOf val) = true →
      isValid (NumberValidator.Validate L { Min := x, Max := .fin 0 } val) = false) := by
  have hg := number_validate_general L { Min := x, Max := .fin 0 } val
  simp only [] at hg
  generalize numOf val = v at hg
  generalize isValid (NumberValidator.Validate L { Min := x, Max := .fin 0 } val) = b at hg
  constructor
  · rw [hg]
    cases x <;> cases v <;> simp_all [F64.lt, F64.le, F64.ge, F64.gt, F64.isNaN]
  · intro hpos
    cases hb : b
    · rfl
    · rw [hb] at hg
      have := hg.1 rfl
      cases x <;> cases v <;> simp_all [F64.lt, F64.le, F64.ge, F64.gt, F64.isNaN]

/-- C20 (as amended): for a plain decimal numeral `m` that reads as the float64
`x`, the checker built from the tag `number,min=m` is
`NumberValidator{Min: x, Max: 0}`. When `x > 0` it accepts every value `v` with
`x <= v`. When `x <= 0` it accepts `v` exactly when `x <= v <= 0` or `v` is NaN, and
so rejects every `v > 0`. The checker built from `string,min=0` is
`StringValidator{Min: 0, Max: 0}` and rejects every non-empty string. For an
integer `m` of the int64 range written in decimal, `x` is `m` converted to float64,
positive when `m > 0` and at most 0 when `m <= 0`. -/
theorem one_sided_min (L : Library) (t : List Char) (x : F64) (ht : PlainNumeral t)
    (hx : convertFloat t = some x) :
    getValidatorFromTag (String.mk ("number,min=".data ++ t)) =
      .number { Min := x, Max := .fin 0 } ∧
    (F64.lt (.fin 0) x = true → ∀ val : Value, x.le (numOf val) = true →
      isValid ((getValidatorFromTag (String.mk ("number,min=".data ++ t))).Validate L val) =
        true) ∧
    (x.le (.fin 0) = true → ∀ val : Value,
      (isValid ((getValidatorFromTag (String.mk ("number,min=".data ++ t))).Validate L val) =
          true ↔
        ((x.le (numOf val) = true ∧ (numOf val).le (.fin 0) = true) ∨
          (numOf val).isNaN = true)) ∧
      (F64.lt (.fin 0) (numOf val) = true →
        isValid ((getValidatorFromTag (String.mk ("number,min=".data ++ t))).Validate L val) =
          false)) ∧
    (getValidatorFromTag "string,min=0" = .string { Min := 0, Max := 0 } ∧
      ∀ s : String, s ≠ "" →
        isValid ((getValidatorFromTag "string,min=0").Validate L (.str s)) = false) ∧
    (∀ m : Int, -(2 : Int) ^ 63 ≤ m → m < (2 : Int) ^ 63 →
      PlainNumeral (Itoa m) ∧ convertFloat (Itoa m) = some (F64.ofInt m) ∧
      (0 < m → F64.lt (.fin 0) (F64.ofInt m) = true) ∧
      (m ≤ 0 → F64.le (F64.ofInt m) (.fin 0) = true)) := by
  have hg := (tag_number_bounds t t x x ht ht hx hx).2.1
  have hs : getValidatorFromTag "string,min=0" = .string { Min := 0, Max := 0 } := by decide
  refine ⟨hg, ?_, ?_, ⟨hs, ?_⟩, ?_⟩
  · intro hpos val hv
    rw [hg]
    exact min_only_positive L x hpos val hv
  · intro hle val
    rw [hg]
    exact min_only_nonpositive L x hle val
  · intro s hne
    rw [hs]
    cases hb : isValid (Validator.Validate L (.string { Min := 0, Max := 0 }) (.str s))
    · rfl
    · exact absurd ((zero_string_valid_iff s).1 hb) hne
  · intro m h1 h2
    exact ⟨plainNumeral_Itoa m, convertFloat_Itoa m ⟨h1, h2⟩, F64.ofInt_sign m ⟨h1, h2⟩⟩

theorem one_sided_min_witness :
    (PlainNumeral "-1".data ∧ convertFloat "-1".data = some (F64.ofInt (-1)) ∧
      F64.le (F64.ofInt (-1)) (.fin 0) = true ∧
      F64.lt (.fin 0) (numOf (.int 3)) = true) ∧
    getValidatorFromTag "number,min=-1" = .number { Min := F64.ofInt (-1), Max := .fin 0 } ∧
    isValid ((getValidatorFromTag "number,min=-1").Validate sampleLibrary (.int 3)) = false ∧
    (PlainNumeral "2".data ∧ convertFloat "2".data = some (F64.ofInt 2) ∧
      F64.lt (.fin 0) (F64.ofInt 2) = true ∧ F64.le (F64.ofInt 2) (numOf (.int 3)) = true) ∧
    isValid ((getValidatorFromTag "number,min=2").Validate sampleLibrary (.int 3)) = true := by
  have ei : Itoa (-1) = "-1".data := by decide
  have n1 : PlainNumeral "-1".data := by rw [← ei]; exact plainNumeral_Itoa (-1)
  have c1 : convertFloat "-1".data = some (F64.ofInt (-1)) := by
    rw [← ei]; exact convertFloat_Itoa (-1) (by decide)
  have l1 : F64.le (F64.ofInt (-1)) (.fin 0) = true := by decide!
  have p1 : F64.lt (.fin 0) (numOf (.int 3)) = true := by decide!
  have n2 : PlainNumeral "2".data := plainNumeral_Itoa 2
  have c2 : convertFloat "2".data = some (F64.ofInt 2) := convertFloat_Itoa 2 (by decide)
  have l2 : F64.lt (.fin 0) (F64.ofInt 2) = true := by decide!
  have p2 : F64.le (F64.ofInt 2) (numOf (.int 3)) = true := by decide!
  have e1 : String.mk ("number,min=".data ++ "-1".data) = "number,min=-1" := by decide
  have e2 : String.mk ("number,min=".data ++ "2".data) = "number,min=2" := by decide
  have h1 := one_sided_min sampleLibrary "-1".data (F64.ofInt (-1)) n1 c1
  have h2 := one_sided_min sampleLibrary "2".data (F64.ofInt 2) n2 c2
  rw [e1] at h1
  rw [e2] at h2
  exact ⟨⟨n1, c1, l1, p1⟩, h1.1, ((h1.2.2.1 l1) (.int 3)).2 p1, ⟨n2, c2, l2, p2⟩,
    h2.2.1 l2 (.int 3) p2⟩

/-- Counterexample to C20 as stated: the checker built from `number,min=-1`
accepts NaN, although `-1 <= NaN` is false, so it does not accept exactly the
values between -1 and 0. -/
theorem one_sided_min_accepts_nan :
    (∀ L : Library,
      (getValidatorFromTag "number,min=-1").Validate L (.float64 .nan) = some (true, none)) ∧
    F64.le (F64.ofInt (-1)) (numOf (.float64 .nan)) = false := by
  have e1 : String.mk ("number,min=".data ++ Itoa (-1)) = "number,min=-1" := by decide
  have hg := (tag_number_bounds (Itoa (-1)) (Itoa (-1)) _ _ (plainNumeral_Itoa _)
    (plainNumeral_Itoa _) (convertFloat_Itoa (-1) (by decide))
    (convertFloat_Itoa (-1) (by decide))).2.1
  rw [e1] at hg
  constructor
  · intro L
    rw [hg]
    simp [Validator.Validate, NumberValidator.Validate, numOf, F64.gt, F64.lt_nan, F64.nan_lt]
  · simp [numOf, F64.le, F64.isNaN]

/-! ## A failing field inside a record -/

theorem ValidateStruct_failing (L : Library) (f : Field) (msg : String)
    (ha : annotated f = true) (hr : checkerResult L f = some (false, some msg))
    (pre post : List Field) :
    (∀ r, ValidateStruct L (pre ++ f :: post) = some r →
      ∃ r1 r2, ValidateStruct L pre = some r1 ∧ ValidateStruct L post = some r2 ∧
        r = r1 ++ (displayName f.type ++ msg) :: r2) ∧
    (∀ r1 r2, ValidateStruct L pre = some r1 → ValidateStruct L post = some r2 →
      ValidateStruct L (pre ++ f :: post) = some (r1 ++ (displayName f.type ++ msg) :: r2)) := by
  have hf : fails L f = true := by simp [fails, ha, hr]
  have he : entryOf L f = displayName f.type ++ msg := by simp only [entryOf, hr]
  have hp : passable L f = true := by simp [passable, hr]
  simp only [ValidateStruct_eq, List.all_append, List.all_cons, hp, Bool.true_and,
    List.filter_append, List.filter_cons, hf, if_true, List.map_append, List.map_cons, he,
    Bool.and_eq_true]
  constructor
  · intro r hr
    split at hr
    · rename_i hall
      simp only [Option.some.injEq] at hr
      exact ⟨_, _, by rw [if_pos hall.1], by rw [if_pos hall.2], hr.symm⟩
    · cases hr
  · intro r1 r2 h1 h2
    split at h1
    · split at h2
      · rename_i ha hb
        simp only [Option.some.injEq] at h1 h2
        rw [if_pos ⟨ha, hb⟩, h1, h2]
      · cases h2
    · cases h1

theorem ValidateStruct_unexported (L : Library) (f : Field) (ha : annotated f = true)
    (hx : f.type.PkgPath ≠ "") (pre post : List Field) :
    ValidateStruct L (pre ++ f :: post) = none := by
  have hc : checkerResult L f = none := by simp [checkerResult, Field.Interface, hx]
  have hp : passable L f = false := by simp [passable, ha, hc]
  simp [ValidateStruct_eq, List.all_append, List.all_cons, hp]

theorem annotated_of_kind (tag : String) (kind : List Char) (arg1 : List (List Char))
    (hk : kind ≠ []) (hs : Split tag.data ',' = kind :: arg1) (hne : arg1 ≠ []) :
    tag ≠ "" ∧ tag ≠ "-" := by
  constructor
  · intro h
    rw [h] at hs
    have h0 : Split "".data ',' = [[]] := by decide
    rw [h0] at hs
    exact hk (List.cons.inj hs).1.symm
  · intro h
    rw [h] at hs
    have h0 : Split "-".data ',' = [['-']] := by decide
    rw [h0] at hs
    exact hne (List.cons.inj hs).2.symm

theorem zero_string_rejects (s : String) (hs : s ≠ "") :
    StringValidator.Validate { Min := 0, Max := 0 } (.str s) =
      some (false, some "最大长度为0位") := by
  have hl : s.length ≠ 0 := fun h => hs ((string_length_eq_zero_iff s).1 h)
  rw [stringValidator_validate_str]
  have h1 : ¬ ((s.length : Int) < 0) := by omega
  have h2 : (0 : Int) ≥ 0 ∧ (s.length : Int) > 0 := ⟨le_refl _, by omega⟩
  simp only [if_neg h1, if_pos h2]
  decide

theorem zero_number_rejects (L : Library) (val : Value) (h0 : numOf val ≠ .fin 0)
    (hn : numOf val ≠ .nan) :
    ∃ msg, NumberValidator.Validate L { Min := .fin 0, Max := .fin 0 } val =
      some (false, some msg) := by
  have hv : ¬ isValid (NumberValidator.Validate L { Min := .fin 0, Max := .fin 0 } val) = true :=
    fun h => ((zero_number_valid_iff L val).1 h).elim h0 hn
  unfold NumberValidator.Validate at hv ⊢
  simp only [] at hv ⊢
  split
  · exact ⟨_, rfl⟩
  · rename_i h1
    split
    · exact ⟨_, rfl⟩
    · rename_i h2
      rw [if_neg h1, if_neg h2] at hv
      exact absurd rfl hv

/-! ## Compile errors and malformed parameters in a record -/

/-- C6 (as amended): for a pattern whose compilation fails with the error `e` and a
non-empty string `s`, `RegexValidator.Validate` returns `false` with the error `e`.
For a field carrying that checker and holding `s`: every report that
`ValidateStruct` returns on a record holding the field has exactly one entry for
it, its display name followed by the message of `e`, between the entries of the
fields before it and those of the fields after it, and the field is then exported;
when the field is exported and the fields before and after it have a report, that
report is returned; when the field is unexported nothing is returned. -/
theorem regex_compile_error_reported (L : Library) (p s e : String)
    (hc : L.regexpCompile p = .error e) (hs : s ≠ "") :
    RegexValidator.Validate L ⟨p⟩ (.str s) = some (false, some e) ∧
    ∀ (f : Field) (pre post : List Field),
      f.type.Get "validate" ≠ "" → f.type.Get "validate" ≠ "-" →
      getValidatorFromTag (f.type.Get "validate") = .regex ⟨p⟩ → f.value = .str s →
      (∀ r, ValidateStruct L (pre ++ f :: post) = some r →
        f.type.PkgPath = "" ∧
        ∃ r1 r2, ValidateStruct L pre = some r1 ∧ ValidateStruct L post = some r2 ∧
          r = r1 ++ (displayName f.type ++ e) :: r2) ∧
      (f.type.PkgPath = "" → ∀ r1 r2,
        ValidateStruct L pre = some r1 → ValidateStruct L post = some r2 →
        ValidateStruct L (pre ++ f :: post) = some (r1 ++ (displayName f.type ++ e) :: r2)) ∧
      (f.type.PkgPath ≠ "" → ValidateStruct L (pre ++ f :: post) = none) := by
  have hv : RegexValidator.Validate L ⟨p⟩ (.str s) = some (false, some e) := by
    simp [RegexValidator.Validate, MatchString, hc, hs]
  refine ⟨hv, ?_⟩
  intro f pre post h1 h2 h3 h5
  have ha : annotated f = true := by simp [annotated, h1, h2]
  have hex : f.type.PkgPath = "" → checkerResult L f = some (false, some e) := by
    intro hx
    simp only [checkerResult, Field.Interface, hx, if_true, h3, Validator.Validate, h5, hv]
  refine ⟨?_, ?_, ?_⟩
  · intro r hr
    by_cases hx : f.type.PkgPath = ""
    · exact ⟨hx, (ValidateStruct_failing L f e ha (hex hx) pre post).1 r hr⟩
    · rw [ValidateStruct_unexported L f ha hx pre post] at hr
      cases hr
  · intro hx
    exact (ValidateStruct_failing L f e ha (hex hx) pre post).2
  · intro hx
    exact ValidateStruct_unexported L f ha hx pre post

/-- Witness of C6: a field tagged with the malformed pattern `(` is reported under
its `json` name, followed by the message of the compile error. -/
theorem regex_compile_error_reported_witness :
    ValidateStruct sampleLibrary
        [⟨⟨"Code", "", [("validate", "regex,pattern=("), ("json", "code")]⟩, .str "abc"⟩] =
      some ["codeerror parsing regexp: missing closing ): `(`"] :=
  (((regex_compile_error_reported sampleLibrary "(" "abc"
      "error parsing regexp: missing closing ): `(`" rfl (by decide)).2
    ⟨⟨"Code", "", [("validate", "regex,pattern=("), ("json", "code")]⟩, .str "abc"⟩
    [] [] (by decide) (by decide) (by decide) rfl).2.1 rfl [] [] rfl rfl).trans (by decide)

/-- Counterexample to C6 as stated: on a record whose field tagged with the
malformed pattern `(` is unexported, no report is returned, whatever the parser:
reading the value of the field panics before the checker runs. -/
theorem regex_compile_error_unexported :
    ¬ ∃ (L : Library) (r : List String),
      ValidateStruct L
        [⟨⟨"code", "main", [("validate", "regex,pattern=(")]⟩, .str "abc"⟩] = some r := by
  rintro ⟨L, r, h⟩
  have h0 := ValidateStruct_unexported L
    ⟨⟨"code", "main", [("validate", "regex,pattern=(")]⟩, .str "abc"⟩ (by decide) (by decide)
    [] []
  rw [List.nil_append] at h0
  rw [h0] at h
  cases h

/-- C13 (as amended): for a tag of kind `string` or `number` with a malformed
parameter list (more than two parameter tokens, or a single one containing neither
`min` nor `max`), `getValidatorFromTag` returns the checker of that kind with both
bounds 0, which is not always-valid: of kind `string` it accepts exactly the empty
string, of kind `number` exactly the values that it reads as 0 (values of a type
that is not numeric included) or NaN. An exported field with such a tag that holds
a non-empty string, or a value read as neither 0 nor NaN, is reported: when the
fields before and after it have a report, the report of the record has the entry
of the field, its display name followed by the message of the checker, between
them. -/
theorem malformed_params_zero (tag : String) (arg1 : List (List Char))
    (hbad : 2 < arg1.length ∨
      ∃ t, arg1 = [t] ∧ Contains t "min".data = false ∧ Contains t "max".data = false) :
    (Split tag.data ',' = "string".data :: arg1 →
      getValidatorFromTag tag = .string { Min := 0, Max := 0 } ∧
      (∀ (L : Library) (s : String),
        isValid ((getValidatorFromTag tag).Validate L (.str s)) = true ↔ s = "") ∧
      (∀ (L : Library) (f : Field) (s : String) (pre post : List Field) (r1 r2 : List String),
        f.type.Get "validate" = tag → f.type.PkgPath = "" → f.value = .str s → s ≠ "" →
        ValidateStruct L pre = some r1 → ValidateStruct L post = some r2 →
        (getValidatorFromTag tag).Validate L f.value = some (false, some "最大长度为0位") ∧
        ValidateStruct L (pre ++ f :: post) =
          some (r1 ++ (displayName f.type ++ "最大长度为0位") :: r2))) ∧
    (Split tag.data ',' = "number".data :: arg1 →
      getValidatorFromTag tag = .number { Min := .fin 0, Max := .fin 0 } ∧
      (∀ (L : Library) (val : Value),
        isValid ((getValidatorFromTag tag).Validate L val) = true ↔
          (numOf val = .fin 0 ∨ numOf val = .nan)) ∧
      (∀ (L : Library) (f : Field) (pre post : List Field) (r1 r2 : List String),
        f.type.Get "validate" = tag → f.type.PkgPath = "" →
        numOf f.value ≠ .fin 0 → numOf f.value ≠ .nan →
        ValidateStruct L pre = some r1 → ValidateStruct L post = some r2 →
        ∃ msg, (getValidatorFromTag tag).Validate L f.value = some (false, some msg) ∧
          ValidateStruct L (pre ++ f :: post) =
            some (r1 ++ (displayName f.type ++ msg) :: r2))) := by
  have hne : arg1 ≠ [] := by
    rcases hbad with h | ⟨t, rfl, _⟩
    · intro h0; rw [h0] at h; simp at h
    · simp
  constructor
  · intro hs
    have h := malformed_string_params tag arg1 hs hbad
    have hta := annotated_of_kind tag "string".data arg1 (by decide) hs hne
    refine ⟨h, fun L s => ?_, ?_⟩
    · rw [h]
      exact zero_string_valid_iff s
    · intro L f s pre post r1 r2 ht hx hv hs0 hp1 hp2
      have ha : annotated f = true := by simp [annotated, ht, hta.1, hta.2]
      have hval : (getValidatorFromTag tag).Validate L f.value =
          some (false, some "最大长度为0位") := by
        rw [h, hv]
        exact zero_string_rejects s hs0
      have hr : checkerResult L f = some (false, some "最大长度为0位") := by
        simp only [checkerResult, Field.Interface, hx, if_true, ht, hval]
      exact ⟨hval, (ValidateStruct_failing L f _ ha hr pre post).2 r1 r2 hp1 hp2⟩
  · intro hs
    have h := malformed_number_params tag arg1 hs hbad
    have hta := annotated_of_kind tag "number".data arg1 (by decide) hs hne
    refine ⟨h, fun L val => ?_, ?_⟩
    · rw [h]
      exact zero_number_valid_iff L val
    · intro L f pre post r1 r2 ht hx h0 hn hp1 hp2
      have ha : annotated f = true := by simp [annotated, ht, hta.1, hta.2]
      obtain ⟨msg, hm⟩ := zero_number_rejects L f.value h0 hn
      have hval : (getValidatorFromTag tag).Validate L f.value = some (false, some msg) := by
        rw [h]
        exact hm
      have hr : checkerResult L f = some (false, some msg) := by
        simp only [checkerResult, Field.Interface, hx, if_true, ht, hval]
      exact ⟨msg, hval, (ValidateStruct_failing L f _ ha hr pre post).2 r1 r2 hp1 hp2⟩

/-- Witness of C13: a tag with three parameter tokens, and one with a single
token that names neither bound; a field with the first tag holding `x` is
reported. -/
theorem malformed_params_zero_witness :
    getValidatorFromTag "string,a,b,c" = .string { Min := 0, Max := 0 } ∧
    getValidatorFromTag "number,limit=5" = .number { Min := .fin 0, Max := .fin 0 } ∧
    ValidateStruct sampleLibrary [⟨⟨"Name", "", [("validate", "string,a,b,c")]⟩, .str "x"⟩] =
      some ["Name最大长度为0位"] :=
  ⟨((malformed_params_zero "string,a,b,c" ["a".data, "b".data, "c".data]
      (Or.inl (by decide))).1 (by decide)).1,
   ((malformed_params_zero "number,limit=5" ["limit=5".data]
      (Or.inr ⟨"limit=5".data, rfl, by decide, by decide⟩)).2 (by decide)).1,
   ((((malformed_params_zero "string,a,b,c" ["a".data, "b".data, "c".data]
      (Or.inl (by decide))).1 (by decide)).2.2 sampleLibrary
      ⟨⟨"Name", "", [("validate", "string,a,b,c")]⟩, .str "x"⟩ "x" [] [] [] []
      rfl rfl rfl (by decide) rfl rfl).2).trans (by decide)⟩

/-- Counterexample to C13 as stated: the checkers of the malformed tags
`string,a,b,c`, `string,length=5` and `number,limit=5` reject the string `x` and
the integer 1. -/
theorem malformed_params_not_valid :
    (∀ L : Library, (getValidatorFromTag "string,a,b,c").Validate L (.str "x") =
      some (false, some "最大长度为0位")) ∧
    (∀ L : Library, (getValidatorFromTag "string,length=5").Validate L (.str "x") =
      some (false, some "最大长度为0位")) ∧
    (∀ L : Library, (getValidatorFromTag "number,limit=5").Validate L (.int 1) =
      some (false, some ("不能超过" ++ L.formatF2 (.fin 0)))) := by
  have hn : getValidatorFromTag "number,limit=5" = .number { Min := .fin 0, Max := .fin 0 } := by
    decide
  have hs : getValidatorFromTag "string,a,b,c" = .string { Min := 0, Max := 0 } := by decide
  have hs2 : getValidatorFromTag "string,length=5" = .string { Min := 0, Max := 0 } := by decide
  have h1 : (F64.ofInt 1).lt (.fin 0) = false := by decide!
  have h2 : F64.lt (.fin 0) (F64.ofInt 1) = true := by decide!
  refine ⟨fun L => ?_, fun L => ?_, fun L => ?_⟩
  · rw [hs]
    simp only [Validator.Validate]
    decide
  · rw [hs2]
    simp only [Validator.Validate]
    decide
  · rw [hn]
    simp only [Validator.Validate, NumberValidator.Validate, numOf, h1, F64.gt, h2]
    rfl

end validator
